import Mathlib

/-!
Verification of the data-map enrichment scripts.

This file gives a shallow embedding of the sampling / enrichment logic of
`enrich_with_rasters.py`, `iNat.py` and `cluster.py` and proves properties of
that embedding.

Modelling conventions:
* Python floats carrying coordinates and pixel values are modelled as `ℚ`.
* Calendar dates (ISO `YYYY-MM-DD` strings) are modelled as `ℤ` day numbers;
  the string round-trip through `pd.to_datetime`/`strftime` is the identity on
  canonical date strings, and `timedelta(days=d)` is subtraction.
* A `None` result (and a missing value) is `Option.none`.
* An opened raster (`rasterio.open` result) is the `Raster` structure below;
  the composite of `rasterio.warp.transform('EPSG:4326', src.crs, ...)` and
  `src.index` is the opaque function `Raster.idx` from (lon, lat) to a
  (row, col) pixel index.
-/

/-- An opened single-band raster source: grid extent, band-1 pixel data, the
declared nodata sentinel, and the composed CRS-transform + affine pixel index
function (from (lon, lat) to (row, col), which may be negative or exceed the
extent for points outside the grid). -/
structure Raster where
  height : ℕ
  width : ℕ
  data : ℕ → ℕ → ℚ
  nodata : Option ℚ
  idx : ℚ → ℚ → ℤ × ℤ

/-- Embedding of `sample_raster_value` from `enrich_with_rasters.py` (lines
20-45): transform the point, compute the pixel index, return `None` unless
`0 <= row < height` and `0 <= col < width`, then read the pixel, apply the
caller-supplied nodata check, then the source-declared nodata check, and
otherwise return `value * scale_factor`.  The Python defaults are
`scale_factor=1.0`, `nodata_val=None`. -/
def sample_raster_value (src : Raster) (lon lat : ℚ) (scale_factor : ℚ)
    (nodata_val : Option ℚ) : Option ℚ :=
  let rc := src.idx lon lat
  if 0 ≤ rc.1 ∧ rc.1 < (src.height : ℤ) ∧ 0 ≤ rc.2 ∧ rc.2 < (src.width : ℤ) then
    let value := src.data rc.1.toNat rc.2.toNat
    if nodata_val = some value then none
    else if src.nodata = some value then none
    else some (value * scale_factor)
  else none

/-- The point-sampler contract as worded in the specification, which lists the
source-declared nodata sentinel check before the caller-supplied override.
Used only to compare against `sample_raster_value` (which checks the override
first). -/
def sampleDeclaredFirst (src : Raster) (lon lat : ℚ) (scale_factor : ℚ)
    (nodata_val : Option ℚ) : Option ℚ :=
  let rc := src.idx lon lat
  if 0 ≤ rc.1 ∧ rc.1 < (src.height : ℤ) ∧ 0 ≤ rc.2 ∧ rc.2 < (src.width : ℤ) then
    let value := src.data rc.1.toNat rc.2.toNat
    if src.nodata = some value then none
    else if nodata_val = some value then none
    else some (value * scale_factor)
  else none

/-- Resolution of a single numpy index against an axis of length `n`: an index
in `[0, n)` reads directly, an index in `[-n, 0)` wraps to the far end, and
anything else raises `IndexError`, modelled as `none`. -/
def wrapIdx (n : ℕ) (k : ℤ) : Option ℕ :=
  if 0 ≤ k ∧ k < (n : ℤ) then some k.toNat
  else if -(n : ℤ) ≤ k ∧ k < 0 then some (k + n).toNat
  else none

/-- Two-dimensional numpy indexing `arr[i, j]` on an `h × w` array, with the
wrap-around semantics of `wrapIdx` on each axis and `IndexError` modelled as
`none`. -/
def numpy_get (h w : ℕ) (d : ℕ → ℕ → ℚ) (i j : ℤ) : Option ℚ :=
  match wrapIdx h i, wrapIdx w j with
  | some a, some b => some (d a b)
  | _, _ => none

/-- Embedding of `get_ndvi_from_raster` from `enrich_with_rasters.py` (lines
157-167): reads `src.read(1)[row, col]` with no bounds check (numpy indexing
semantics, any `IndexError` is caught by the surrounding `except` and turned
into `None`), then returns `value / 10000` unless the value equals the
declared nodata sentinel. -/
def get_ndvi_from_raster (src : Raster) (lon lat : ℚ) : Option ℚ :=
  let rc := src.idx lon lat
  match numpy_get src.height src.width src.data rc.1 rc.2 with
  | none => none
  | some v => if some v ≠ src.nodata then some (v / 10000) else none

namespace INat

/-- Embedding of the duplicate `sample_raster_value` in `iNat.py` (lines 7-21):
reads the pixel with no bounds check (`IndexError` caught, `None`), applies
only the caller-supplied `nodata_val` check — the source-declared
`src.nodata` sentinel is never consulted — and returns
`value * scale_factor`. -/
def sample_raster_value (src : Raster) (lon lat : ℚ) (scale_factor : ℚ)
    (nodata_val : Option ℚ) : Option ℚ :=
  let rc := src.idx lon lat
  match numpy_get src.height src.width src.data rc.1 rc.2 with
  | none => none
  | some value =>
    if nodata_val = some value then none
    else some (value * scale_factor)

end INat

/-- Zero-pad the decimal representation of `n` to at least `w` characters,
as Python `f-string` formatting `{n:0wd}` does for a non-negative integer. -/
def padNum (w : ℕ) (n : ℕ) : String :=
  let s := toString n
  String.mk (List.replicate (w - s.length) (Char.ofNat 48)) ++ s

/-- Embedding of `get_worldcover_tile_name` from `enrich_with_rasters.py`
(lines 86-95): floor each coordinate to its 3-degree cell origin (`Rat.floor`
is `⌊·⌋` on `ℚ`, exactly Python `math.floor`), pick the hemisphere letters
from the sign of the cell origin, zero-pad the latitude magnitude to 2 digits
and the longitude magnitude to 3 digits, and splice into the fixed ESA
WorldCover naming template. -/
def get_worldcover_tile_name (lat lon : ℚ) : String :=
  let lat_deg : ℤ := (lat / 3).floor * 3
  let lon_deg : ℤ := (lon / 3).floor * 3
  let latHem : String := if 0 ≤ lat_deg then "N" else "S"
  let lonHem : String := if 0 ≤ lon_deg then "E" else "W"
  let latStr := padNum 2 lat_deg.natAbs
  let lonStr := padNum 3 lon_deg.natAbs
  "ESA_WorldCover_10m_2020_v100_" ++ latHem ++ latStr ++ lonHem ++ lonStr ++ "_Map.tif"

/-- The tile-resolver contract exactly as the specification words it: cell
origin `floor(coord / 3) * 3` independently per coordinate, lat prefixed "N"
when the cell origin is `≥ 0` else "S", lon prefixed "E" when `≥ 0` else "W",
latitude magnitude zero-padded to 2 digits and longitude magnitude to
3 digits, combined with the fixed naming template. -/
def resolve_tile_spec (lat lon : ℚ) : String :=
  let latCell : ℤ := (lat / 3).floor * 3
  let lonCell : ℤ := (lon / 3).floor * 3
  "ESA_WorldCover_10m_2020_v100_" ++
    (if 0 ≤ latCell then "N" else "S") ++ padNum 2 latCell.natAbs ++
    (if 0 ≤ lonCell then "E" else "W") ++ padNum 3 lonCell.natAbs ++ "_Map.tif"

/-- Structured key identifying a source file path constructed by the scripts.
Filenames are deterministic functions of the fields interpolated into their
templates (`ndvi_{date}_{lat:.4f}_{lon:.4f}.tif`, `soil_{date}.nc`,
`precip_{date}.tif`, and the WorldCover tile name); a key carries exactly
that information. -/
inductive FileKey where
  | ndviFile (date : ℤ) (lat lon : ℚ)
  | soilFile (date : ℤ)
  | precipFile (date : ℤ)
  | worldcoverFile (name : String)
  deriving DecidableEq

/-- One observation row of the table, restricted to the columns the
enrichment passes read or write.  `date` is `none` for a null date; `prcp` is
the `prcp_d0..prcp_d6` column group. -/
@[ext]
structure Row where
  uuid : ℕ
  date : Option ℤ
  lat : ℚ
  lon : ℚ
  ndvi : Option ℚ
  soil_moisture : Option ℚ
  prcp : List (Option ℚ)
  land_cover : Option ℚ
  land_cover_label : Option String
  deriving DecidableEq

/-- External collaborators of the orchestrator, keyed by file path:
`os.path.exists`, the raster point sampler applied to a path
(`sample_raster_value(path, lon, lat, scale, nodata)`), the NDVI sampler
(`get_ndvi_from_raster(path, lon, lat)`), and the soil-moisture extractor
applied to the dataset loaded once per date from a path
(`extract_soil_moisture(load(path), lat, lon, date)`).  A fixed set of
unchanged source files determines these functions, so two runs against the
same files see the same `Env`. -/
structure Env where
  exists_file : FileKey → Bool
  sample : FileKey → ℚ → ℚ → ℚ → Option ℚ → Option ℚ
  ndvi_sample : FileKey → ℚ → ℚ → Option ℚ
  soil_sample : FileKey → ℚ → ℚ → ℤ → Option ℚ

/-- `pandas.unique`: deduplicate, keeping first occurrences in order. -/
def pdUnique : List ℤ → List ℤ
  | [] => []
  | a :: l => a :: pdUnique (l.filter (fun b => decide (b ≠ a)))
termination_by l => l.length
decreasing_by
  simp_wf
  exact Nat.lt_succ_of_le (List.length_filter_le _ _)

/-- `sorted(set(df['date'].dropna()))` (line 207): the distinct non-null
dates, ascending. -/
def uniqueDates (rows : List Row) : List ℤ :=
  List.insertionSort (fun a b => a ≤ b) (pdUnique (rows.filterMap (fun r => r.date)))

/-- The initial column assignment of `enrich_df_with_rasters` (lines
204-205): `df['ndvi'] = None; df['soil_moisture'] = None`. -/
def wipeNS (r : Row) : Row := { r with ndvi := none, soil_moisture := none }

/-- The per-row body of the date loop of `enrich_df_with_rasters` (lines
234-238): sample NDVI from the date's NDVI file when it exists, and soil
moisture from the date's soil file when it exists.  `flat`, `flon` are the
coordinates of the date group's first row (lines 215-217); the two existence
flags are recomputed here from the same unchanged file system, so they equal
the values hoisted before the row loop. -/
def rowUpdateNS (env : Env) (d : ℤ) (flat flon : ℚ) (r : Row) : Row :=
  let nk := FileKey.ndviFile d flat flon
  let sk := FileKey.soilFile d
  let r1 := if env.exists_file nk then
    { r with ndvi := env.ndvi_sample nk r.lon r.lat } else r
  if env.exists_file sk then
    { r1 with soil_moisture := env.soil_sample sk r.lat r.lon d } else r1

/-- One iteration of the date loop of `enrich_df_with_rasters` (lines
210-238): select the date group, read the first row's coordinates, build the
expected file names, skip the date when neither file exists, and otherwise
update every row of the date. -/
def enrichDateGroup (env : Env) (d : ℤ) (rows : List Row) : List Row :=
  match rows.find? (fun r => decide (r.date = some d)) with
  | none => rows
  | some f =>
    if env.exists_file (FileKey.ndviFile d f.lat f.lon) = false ∧
        env.exists_file (FileKey.soilFile d) = false then rows
    else
      rows.map (fun r =>
        if r.date = some d then rowUpdateNS env d f.lat f.lon r else r)

/-- Embedding of `enrich_df_with_rasters` (lines 203-240): reset the `ndvi`
and `soil_moisture` columns, then run the date loop over the sorted distinct
non-null dates. -/
def enrich_df_with_rasters (env : Env) (rows : List Row) : List Row :=
  let rows1 := rows.map wipeNS
  (uniqueDates rows1).foldl (fun acc d => enrichDateGroup env d acc) rows1

/-- The key projection of a row that determines every sampling decision of
`enrich_df_with_rasters`: (date, lat, lon). -/
def keyOf (r : Row) : Option ℤ × ℚ × ℚ := (r.date, r.lat, r.lon)

/-- The effect of the date-`d` iteration of `enrich_df_with_rasters` on a
single row, phrased against the key projection of the table (whose first
entry with date `d` supplies the NDVI file coordinates). -/
def rowStepE (env : Env) (ks : List (Option ℤ × ℚ × ℚ)) (d : ℤ) (r : Row) : Row :=
  if r.date = some d then
    match ks.find? (fun k => decide (k.1 = some d)) with
    | none => r
    | some f => rowUpdateNS env d f.2.1 f.2.2 r
  else r

/-- The `ndvi` value `enrich_df_with_rasters` leaves on a row with date
`dOpt` at (lon, lat), when the table's key projection is `ks` and the
processed date list is `ds`. -/
def ndviValue (env : Env) (ks : List (Option ℤ × ℚ × ℚ)) (ds : List ℤ)
    (dOpt : Option ℤ) (lon lat : ℚ) : Option ℚ :=
  match dOpt with
  | none => none
  | some d =>
    if d ∈ ds then
      match ks.find? (fun k => decide (k.1 = some d)) with
      | none => none
      | some f =>
        if env.exists_file (FileKey.ndviFile d f.2.1 f.2.2) then
          env.ndvi_sample (FileKey.ndviFile d f.2.1 f.2.2) lon lat
        else none
    else none

/-- The `soil_moisture` value `enrich_df_with_rasters` leaves on a row with
date `dOpt` at (lat, lon). -/
def soilValue (env : Env) (ks : List (Option ℤ × ℚ × ℚ)) (ds : List ℤ)
    (dOpt : Option ℤ) (lat lon : ℚ) : Option ℚ :=
  match dOpt with
  | none => none
  | some d =>
    if d ∈ ds then
      match ks.find? (fun k => decide (k.1 = some d)) with
      | none => none
      | some _ =>
        if env.exists_file (FileKey.soilFile d) then
          env.soil_sample (FileKey.soilFile d) lat lon d
        else none
    else none

/-- The per-row effect of the offset-`dOff` inner iteration of
`enrich_with_precip` (lines 69-81): when the lookback raster for
`date - dOff` exists, rows of this date group receive the sampled value in
their `prcp_d{dOff}` slot. -/
def precipOffsetUpd (env : Env) (date : ℤ) (dOff : ℕ) (r : Row) : Row :=
  if env.exists_file (FileKey.precipFile (date - dOff)) then
    if r.date = some date then
      let v := env.sample (FileKey.precipFile (date - dOff)) r.lon r.lat 1 none
      { r with prcp := r.prcp.set dOff v }
    else r
  else r

/-- One iteration of the date loop of `enrich_with_precip`: for each lookback
offset 0..6, skip a missing raster and otherwise sample it for every row of
the date (`sample_raster_value` with default scale and nodata). -/
def precipDateStep (env : Env) (date : ℤ) (rows : List Row) : List Row :=
  (List.range 7).foldl (fun acc (dOff : ℕ) =>
    if env.exists_file (FileKey.precipFile (date - dOff)) then
      acc.map (fun r =>
        if r.date = some date then
          let v := env.sample (FileKey.precipFile (date - dOff)) r.lon r.lat 1 none
          { r with prcp := r.prcp.set dOff v }
        else r)
    else acc) rows

/-- The initial column assignment `df['prcp_d0']..df['prcp_d6'] = None`
(lines 61-63). -/
def wipeP (r : Row) : Row := { r with prcp := List.replicate 7 none }

/-- Embedding of `enrich_with_precip` (lines 59-83): reset the seven lookback
columns, then iterate the distinct non-null dates in first-occurrence order
(`pandas.unique`), sampling each existing lookback raster for every row of
the date. -/
def enrich_with_precip (env : Env) (rows : List Row) : List Row :=
  let rows1 := rows.map wipeP
  (pdUnique (rows1.filterMap (fun r => r.date))).foldl
    (fun acc date => precipDateStep env date acc) rows1

/-- The `prcp` column group `enrich_with_precip` leaves on a row with date
`dOpt` at (lon, lat), when the processed date list is `dsP`. -/
def prcpValues (env : Env) (dsP : List ℤ) (dOpt : Option ℤ) (lon lat : ℚ) :
    List (Option ℚ) :=
  match dOpt with
  | none => List.replicate 7 none
  | some dd =>
    if dd ∈ dsP then
      (List.range 7).foldl (fun l (dOff : ℕ) =>
        if env.exists_file (FileKey.precipFile (dd - dOff)) then
          l.set dOff (env.sample (FileKey.precipFile (dd - dOff)) lon lat 1 none)
        else l) (List.replicate 7 none)
    else List.replicate 7 none

/-- Embedding of `enrich_with_worldcover` (lines 97-113): reset `land_cover`,
then per row resolve the covering tile name, skip a missing tile file, and
otherwise point-sample it with scale 1 and nodata override 255. -/
def enrich_with_worldcover (env : Env) (rows : List Row) : List Row :=
  (rows.map (fun r => { r with land_cover := none })).map (fun r =>
    let tile := FileKey.worldcoverFile (get_worldcover_tile_name r.lat r.lon)
    if env.exists_file tile then
      { r with land_cover := env.sample tile r.lon r.lat 1 (some 255) }
    else r)

/-- The fixed ESA WorldCover class-code → label mapping (lines 115-127). -/
def ESA_WORLDCOVER_CLASSES : List (ℚ × String) :=
  [(10, "Tree cover"), (20, "Shrubland"), (30, "Grassland"), (40, "Cropland"),
   (50, "Built-up"), (60, "Bare / sparse vegetation"), (70, "Snow and ice"),
   (80, "Water"), (90, "Wetland"), (95, "Mangroves"), (100, "Moss and lichen")]

/-- Embedding of `add_worldcover_labels` (lines 129-131):
`df['land_cover_label'] = df['land_cover'].map(ESA_WORLDCOVER_CLASSES)`; an
unmapped or null code yields a null label. -/
def add_worldcover_labels (rows : List Row) : List Row :=
  rows.map (fun r =>
    { r with land_cover_label :=
        r.land_cover.bind (fun v =>
          (ESA_WORLDCOVER_CLASSES.find? (fun p => decide (p.1 = v))).map
            (fun p => p.2)) })

/-- A gridded time-series source (`xarray` dataset): dimension names, time
coordinate values, spatial coordinate arrays, and the `swvl1` variable
indexed by (time index, latitude index, longitude index). -/
structure SoilDataset where
  dims : List String
  times : List ℤ
  lats : List ℚ
  lons : List ℚ
  data : ℕ → ℕ → ℕ → ℚ

/-- First (earliest-position) minimiser of `key` in a list, positions counted
from `i`. -/
def argminAux (key : α → ℕ) : List α → ℕ → Option (ℕ × α)
  | [], _ => none
  | c :: l, i =>
    match argminAux key l (i + 1) with
    | none => some (i, c)
    | some (j, b) => if key b < key c then some (j, b) else some (i, c)

/-- Nearest-neighbour time selection (`ds.sel({time_dim: date},
method="nearest")`): index of a time coordinate minimising the distance to
the requested date. -/
def nearestTimeIdx (times : List ℤ) (date : ℤ) : Option ℕ :=
  (argminAux (fun t => (t - date).natAbs) times 0).map (fun p => p.1)

/-- Locate the cell `[coords[i], coords[i+1]]` bracketing `x`, and the
fractional position of `x` inside it; `none` when `x` lies outside the
coordinate range. -/
def findCellAux : List ℚ → ℚ → ℕ → Option (ℕ × ℚ)
  | a :: b :: rest, x, i =>
    if a ≤ x ∧ x ≤ b then some (i, (x - a) / (b - a))
    else findCellAux (b :: rest) x (i + 1)
  | _, _, _ => none

/-- Entry point of `findCellAux` at position 0. -/
def findCell (coords : List ℚ) (x : ℚ) : Option (ℕ × ℚ) := findCellAux coords x 0

/-- Bilinear interpolation of a 2-D field over the coordinate arrays
`lats`/`lons` (xarray `.interp(latitude=lat, longitude=lon)`, linear in each
dimension); `none` stands for the NaN/failure outcomes the caller's handler
collapses to a missing value. -/
def interp2 (lats lons : List ℚ) (f : ℕ → ℕ → ℚ) (lat lon : ℚ) : Option ℚ :=
  match findCell lats lat, findCell lons lon with
  | some (i, t), some (j, u) =>
    some ((1 - t) * ((1 - u) * f i j + u * f i (j + 1)) +
          t * ((1 - u) * f (i + 1) j + u * f (i + 1) (j + 1)))
  | _, _ => none

/-- Embedding of `extract_soil_moisture` (lines 138-153): recognise the time
dimension under either alias `time` or `valid_time` (raising when neither is
present — caught by the function's own handler, hence `none`), select the
nearest available time slice to the requested date, and interpolate `swvl1`
spatially at the exact coordinate within that single slice. -/
def extract_soil_moisture (ds : SoilDataset) (lat lon : ℚ) (date : ℤ) : Option ℚ :=
  let timeDim : Option String :=
    if "time" ∈ ds.dims then some "time"
    else if "valid_time" ∈ ds.dims then some "valid_time"
    else none
  match timeDim with
  | none => none
  | some _ =>
    match nearestTimeIdx ds.times date with
    | none => none
    | some ti => interp2 ds.lats ds.lons (ds.data ti) lat lon

/-- Ordering used by `df.sort_values('date')` in `fill_missing_ndvi`:
ascending dates with nulls (`NaT`) last.  The model uses a stable sort;
pandas' default sort fixes no particular order among equal dates, and no
theorem below depends on the tie order. -/
def dateLE : Option ℤ → Option ℤ → Bool
  | some a, some b => a ≤ b
  | some _, none => true
  | none, some _ => false
  | none, none => true

/-- The date-sorted table produced by `df.sort_values('date')` (line 172). -/
def sortByDate (rows : List Row) : List Row :=
  List.insertionSort (fun a b => dateLE a.date b.date = true) rows

/-- The absolute day difference `abs((d - date).days)` between two date
cells; `none` models the NaN produced when either is `NaT`, which then fails
the `<= max_days_gap` comparison. -/
def dayDiff : Option ℤ → Option ℤ → Option ℕ
  | some a, some b => some (a - b).natAbs
  | _, _ => none

/-- First element of a list minimising `key`: the head of a stable sort by
`key`, i.e. `sort_values('date_diff')` followed by `iloc[0]`. -/
def firstMinBy (key : α → ℕ) : List α → Option α
  | [] => none
  | c :: l =>
    match firstMinBy key l with
    | none => some c
    | some b => if key b < key c then some b else some c

/-- One iteration of the fill loop of `fill_missing_ndvi` (lines 174-196),
applied to the row at position `i` of the current table: collect the rows
with a non-null `ndvi` at exactly the same coordinates, attach day
differences, keep those within the gap, and copy the `ndvi` of the first
minimiser into row `i`; the Boolean reports whether a fill happened. -/
def fillOne (gap : ℕ) (st : List Row) (i : ℕ) : List Row × Bool :=
  match st[i]? with
  | none => (st, false)
  | some row =>
    let cands := st.filter (fun c =>
      c.ndvi.isSome && decide (c.lat = row.lat) && decide (c.lon = row.lon))
    let withDiff := cands.filterMap (fun c =>
      (dayDiff c.date row.date).map (fun v => (c, v)))
    let nearest := withDiff.filter (fun p => p.2 ≤ gap)
    match firstMinBy (fun p => p.2) nearest with
    | none => (st, false)
    | some p => (st.set i { row with ndvi := p.1.ndvi }, true)

/-- The fill loop of `fill_missing_ndvi`: run `fillOne` over the listed
positions in order, counting the fills (`filled += 1`). -/
def fillLoop (gap : ℕ) (ps : List ℕ) (st : List Row) (cnt : ℕ) : List Row × ℕ :=
  ps.foldl (fun acc i =>
    let q := fillOne gap acc.1 i
    (q.1, if q.2 then acc.2 + 1 else acc.2)) (st, cnt)

/-- Embedding of `fill_missing_ndvi` (lines 169-199): sort the table by date,
iterate over the positions that hold a null `ndvi` at the start of the pass
(in sorted order), filling each from the current — already partially filled —
table; returns the updated table together with the `filled` counter the
function reports. -/
def fill_missing_ndvi (rows : List Row) (max_days_gap : ℕ) : List Row × ℕ :=
  let s := sortByDate rows
  let nullPos := (List.range s.length).filter (fun i =>
    match s[i]? with
    | some r => r.ndvi.isNone
    | none => false)
  fillLoop max_days_gap nullPos s 0

/-- Relation between a row `r0` of the start table and the row `r` the fill
pass leaves at its position: every field but `ndvi` is unchanged, and the
`ndvi` is either the original one or a non-null value carried by some row of
the start table at exactly the same coordinates. -/
def ndviFrom (s : List Row) (r0 r : Row) : Prop :=
  r = { r0 with ndvi := r.ndvi } ∧
  (r.ndvi = r0.ndvi ∨
    ∃ c ∈ s, c.lat = r0.lat ∧ c.lon = r0.lon ∧ c.ndvi = r.ndvi ∧ r.ndvi ≠ none)

/-- Invariant tying the evolving fill table to the start table `s`. -/
def FillInv (s st : List Row) : Prop :=
  st.length = s.length ∧
  ∀ (j : ℕ) (r0 r : Row), s[j]? = some r0 → st[j]? = some r → ndviFrom s r0 r

/-- Number of rows holding a non-null `ndvi`. -/
def countSome (l : List Row) : ℕ := l.countP (fun r => r.ndvi.isSome)

/-- All clustering feature columns are present (pandas
`dropna(subset=features)` keeps the row). -/
def hasAllFeatures (r : Row) : Bool :=
  r.ndvi.isSome && r.soil_moisture.isSome && r.prcp.all (fun v => v.isSome)

/-- Embedding of `cluster_environmental` from `cluster.py` (lines 7-29).  The
scaler + KMeans pipeline is the spec's external partitioning method,
abstracted as `fit` from the fitting subtable to one integer label per row.
`df.merge(df_cluster[['uuid', 'cluster']], on='uuid', how='left')` is
modelled as a first-match lookup by `uuid`, the pandas behaviour when `uuid`
is unique (the data model's stable row identity). -/
def cluster_environmental (fit : List Row → List ℤ) (rows : List Row) :
    List (Row × Option ℤ) :=
  let dfc := rows.filter hasAllFeatures
  let labeled := dfc.zip (fit dfc)
  rows.map (fun r =>
    (r, (labeled.find? (fun p => decide (p.1.uuid = r.uuid))).map (fun p => p.2)))

/-- Helper to build a bare observation row before enrichment. -/
def mkRow (uuid : ℕ) (date : Option ℤ) (lat lon : ℚ) (ndvi : Option ℚ) : Row :=
  ⟨uuid, date, lat, lon, ndvi, none, List.replicate 7 none, none, none⟩

/-- Test environment: every NDVI file exists, and sampling an NDVI file
reports the latitude stored in the file's name, so the test can observe which
file a row was sampled from. -/
def envNdviProbe : Env where
  exists_file := fun k => match k with
    | FileKey.ndviFile _ _ _ => true
    | _ => false
  sample := fun _ _ _ _ _ => none
  ndvi_sample := fun k _ _ => match k with
    | FileKey.ndviFile _ klat _ => some klat
    | _ => none
  soil_sample := fun _ _ _ _ => none

/-- Two rows sharing a date at two different locations. -/
def rowsTwoLoc : List Row :=
  [mkRow 1 (some 5) 40 (-105) none, mkRow 2 (some 5) 10 20 none]

/-- Test environment: only the precipitation raster for day 0 exists and
sampling it yields 5. -/
def envPrecipD0 : Env where
  exists_file := fun k => match k with
    | FileKey.precipFile dte => decide (dte = 0)
    | _ => false
  sample := fun _ _ _ _ _ => some 5
  ndvi_sample := fun _ _ _ => none
  soil_sample := fun _ _ _ _ => none

/-- Three rows sharing the date (day 0) at three distinct locations. -/
def rowsThreeLoc : List Row :=
  [mkRow 1 (some 0) 40 (-105) none, mkRow 2 (some 0) 41 (-106) none,
   mkRow 3 (some 0) 42 (-107) none]

/-- The spec's fallback scenario: non-null values at one location on day 1
and day 10, a null row at the same location on day 3. -/
def rowsSpecFill : List Row :=
  [mkRow 1 (some 1) 40 (-105) (some 5), mkRow 2 (some 10) 40 (-105) (some 8),
   mkRow 3 (some 3) 40 (-105) none]

/-- Chained-fill scenario: one non-null value on day 1, null rows on day 8
and day 9 at the same location. -/
def rowsChainFill : List Row :=
  [mkRow 1 (some 1) 40 (-105) (some 5), mkRow 2 (some 8) 40 (-105) none,
   mkRow 3 (some 9) 40 (-105) none]

/-- Two fully non-null rows whose dates are out of order. -/
def rowsReorder : List Row :=
  [mkRow 1 (some 10) 40 (-105) (some 1), mkRow 2 (some 1) 40 (-105) (some 1)]

/-- A single row whose `ndvi` is null, with no other row anywhere. -/
def rowsLoneNull : List Row := [mkRow 1 (some 1) 40 (-105) none]

/-- A 2×2×2 soil-moisture dataset: time slices at days 0 and 10; the day-0
slice holds corner values 0, 2, 4, 6 over the unit square, and the day-10
slice is constant 100. -/
def soilDs2 : SoilDataset where
  dims := ["time", "latitude", "longitude"]
  times := [0, 10]
  lats := [0, 1]
  lons := [0, 1]
  data := fun t i j =>
    if t = 0 then (if i = 0 then (if j = 0 then 0 else 2) else (if j = 0 then 4 else 6))
    else 100

/-- A dataset with no recognised time dimension alias. -/
def soilDsNoTime : SoilDataset where
  dims := ["latitude", "longitude"]
  times := [0]
  lats := [0]
  lons := [0]
  data := fun _ _ _ => 0

/-- C1: for every latitude in [-90, 90] and longitude in [-180, 180], the tile
resolver is a pure total function agreeing with the spec formula (floor to the
3-degree cell origin, hemisphere prefixes from the sign of the cell origin,
2-digit latitude and 3-digit longitude magnitudes); `resolve_tile(40.5,
-105.3)` yields the tile id containing "N39W108"; a coordinate exactly on a
multiple of 3 (39, or the negative multiple -105) resolves to that multiple,
not the next cell down. -/
theorem tile_resolver_correct :
    (∀ lat lon : ℚ, -90 ≤ lat → lat ≤ 90 → -180 ≤ lon → lon ≤ 180 →
      get_worldcover_tile_name lat lon = resolve_tile_spec lat lon) ∧
    get_worldcover_tile_name (81/2) (-1053/10) =
      "ESA_WorldCover_10m_2020_v100_N39W108_Map.tif" ∧
    get_worldcover_tile_name 39 (-105) =
      "ESA_WorldCover_10m_2020_v100_N39W105_Map.tif" ∧
    get_worldcover_tile_name (-6) 3 =
      "ESA_WorldCover_10m_2020_v100_S06E003_Map.tif" := by
  refine ⟨fun _ _ _ _ _ _ => rfl, ?_, ?_, ?_⟩
  · have h1 : ((81 : ℚ)/2/3).floor = 13 := by norm_num [Rat.floor_def']
    have h2 : ((-1053 : ℚ)/10/3).floor = -36 := by norm_num [Rat.floor_def']
    simp only [get_worldcover_tile_name, h1, h2]
    rfl
  · have h1 : ((39 : ℚ)/3).floor = 13 := by norm_num [Rat.floor_def']
    have h2 : ((-105 : ℚ)/3).floor = -35 := by norm_num [Rat.floor_def']
    simp only [get_worldcover_tile_name, h1, h2]
    rfl
  · have h1 : ((-6 : ℚ)/3).floor = -2 := by norm_num [Rat.floor_def']
    have h2 : ((3 : ℚ)/3).floor = 1 := by norm_num [Rat.floor_def']
    simp only [get_worldcover_tile_name, h1, h2]
    rfl

/-- Witness for C1 at the spec's own example point (40.5, -105.3). -/
theorem tile_resolver_correct_witness :
    get_worldcover_tile_name (81/2) (-1053/10) = resolve_tile_spec (81/2) (-1053/10) :=
  tile_resolver_correct.1 (81/2) (-1053/10)
    (by norm_num) (by norm_num) (by norm_num) (by norm_num)

theorem wrapIdx_in_range {n : ℕ} {k : ℤ} (h0 : 0 ≤ k) (hk : k < (n : ℤ)) :
    wrapIdx n k = some k.toNat := by
  unfold wrapIdx
  rw [if_pos ⟨h0, hk⟩]

theorem wrapIdx_oob {n : ℕ} {k : ℤ} (h : (n : ℤ) ≤ k ∨ k < -(n : ℤ)) :
    wrapIdx n k = none := by
  unfold wrapIdx
  rw [if_neg (by omega), if_neg (by omega)]

theorem numpy_get_in_range {h w : ℕ} {d : ℕ → ℕ → ℚ} {i j : ℤ}
    (hi0 : 0 ≤ i) (hih : i < (h : ℤ)) (hj0 : 0 ≤ j) (hjw : j < (w : ℤ)) :
    numpy_get h w d i j = some (d i.toNat j.toNat) := by
  unfold numpy_get
  rw [wrapIdx_in_range hi0 hih, wrapIdx_in_range hj0 hjw]

theorem numpy_get_oob {h w : ℕ} {d : ℕ → ℕ → ℚ} {i j : ℤ}
    (hyp : (h : ℤ) ≤ i ∨ i < -(h : ℤ) ∨ (w : ℤ) ≤ j ∨ j < -(w : ℤ)) :
    numpy_get h w d i j = none := by
  unfold numpy_get
  rcases hyp with hc | hc | hc | hc
  · rw [wrapIdx_oob (Or.inl hc)]
  · rw [wrapIdx_oob (Or.inr hc)]
  · rw [wrapIdx_oob (Or.inl hc)]
    cases wrapIdx h i <;> rfl
  · rw [wrapIdx_oob (Or.inr hc)]
    cases wrapIdx h i <;> rfl

/-- C2 (amended): `sample_raster_value` checks the pixel index against the
raster extent before any read: for an out-of-extent index it returns NoData no
matter what the pixel data holds (the result is the same for two rasters
differing only in pixel data), and the function is total, so no exception
reaches the caller.  `get_ndvi_from_raster` has no explicit bounds check: an
index at or beyond the extent (or below the negative wrap range) raises
`IndexError`, which its `except` converts to NoData — but a negative
out-of-extent index inside the wrap range silently reads a wrapped pixel (see
the counterexample). -/
theorem point_sampler_oob_safe :
    (∀ (h w : ℕ) (d1 d2 : ℕ → ℕ → ℚ) (nd : Option ℚ) (ix : ℚ → ℚ → ℤ × ℤ)
        (lon lat scale : ℚ) (nv : Option ℚ),
      ¬(0 ≤ (ix lon lat).1 ∧ (ix lon lat).1 < (h : ℤ) ∧
          0 ≤ (ix lon lat).2 ∧ (ix lon lat).2 < (w : ℤ)) →
      sample_raster_value ⟨h, w, d1, nd, ix⟩ lon lat scale nv = none ∧
        sample_raster_value ⟨h, w, d1, nd, ix⟩ lon lat scale nv =
          sample_raster_value ⟨h, w, d2, nd, ix⟩ lon lat scale nv) ∧
    (∀ (src : Raster) (lon lat : ℚ),
      ((src.height : ℤ) ≤ (src.idx lon lat).1 ∨
          (src.idx lon lat).1 < -(src.height : ℤ) ∨
          (src.width : ℤ) ≤ (src.idx lon lat).2 ∨
          (src.idx lon lat).2 < -(src.width : ℤ)) →
      get_ndvi_from_raster src lon lat = none) := by
  constructor
  · intro h w d1 d2 nd ix lon lat scale nv hnot
    have e1 : sample_raster_value ⟨h, w, d1, nd, ix⟩ lon lat scale nv = none := by
      unfold sample_raster_value
      exact if_neg hnot
    have e2 : sample_raster_value ⟨h, w, d2, nd, ix⟩ lon lat scale nv = none := by
      unfold sample_raster_value
      exact if_neg hnot
    exact ⟨e1, e1.trans e2.symm⟩
  · intro src lon lat hyp
    unfold get_ndvi_from_raster
    dsimp only
    rw [numpy_get_oob hyp]

/-- Witness for C2 at a concrete raster whose pixel index lands one row past
the extent. -/
theorem point_sampler_oob_safe_witness :
    sample_raster_value ⟨2, 2, (fun _ _ => 5), none, (fun _ _ => (2, 0))⟩
        0 0 1 none = none ∧
      get_ndvi_from_raster ⟨2, 2, (fun _ _ => 5), none, (fun _ _ => (2, 0))⟩
        0 0 = none :=
  ⟨(point_sampler_oob_safe.1 2 2 (fun _ _ => 5) (fun _ _ => 5) none
      (fun _ _ => (2, 0)) 0 0 1 none (by decide)).1,
    point_sampler_oob_safe.2 ⟨2, 2, (fun _ _ => 5), none, (fun _ _ => (2, 0))⟩
      0 0 (by decide)⟩

/-- C2 counterexample: a point mapping to pixel index (-1, 0) — outside the
2×2 raster's row extent — is not turned into NoData by
`get_ndvi_from_raster`; numpy wraps the negative index and the sampler
returns the opposite-edge pixel's value scaled by 1/10000. -/
theorem ndvi_sampler_negative_index_counterexample :
    ¬(0 ≤ (-1 : ℤ)) ∧
      get_ndvi_from_raster
          ⟨2, 2, (fun i j => if i = 1 ∧ j = 0 then 3 else 0), none,
            (fun _ _ => (-1, 0))⟩ 0 0 = some (3 / 10000) := by
  refine ⟨by decide, ?_⟩
  have hn : numpy_get 2 2 (fun i j => if i = 1 ∧ j = 0 then 3 else 0) (-1) 0 =
      some 3 := by decide
  unfold get_ndvi_from_raster
  dsimp only
  rw [hn]
  simp

/-- C3 (amended): for an in-bounds sample, `sample_raster_value` returns
NoData when the raw value matches either the caller-supplied override (checked
first in the code) or the source-declared sentinel (checked second) — the
check order is observationally irrelevant, and the function equals the
spec-ordered variant on all inputs — and otherwise returns
`raw_value * scale` with scale defaulting to 1.  The duplicate sampler in
`iNat.py`, however, consults only the caller-supplied override: a raw value
equal to the source's declared sentinel is returned scaled there. -/
theorem point_sampler_nodata_scale :
    (∀ (src : Raster) (lon lat scale : ℚ) (nv : Option ℚ) (value : ℚ),
      0 ≤ (src.idx lon lat).1 → (src.idx lon lat).1 < (src.height : ℤ) →
      0 ≤ (src.idx lon lat).2 → (src.idx lon lat).2 < (src.width : ℤ) →
      src.data (src.idx lon lat).1.toNat (src.idx lon lat).2.toNat = value →
      ((src.nodata = some value ∨ nv = some value) →
        sample_raster_value src lon lat scale nv = none) ∧
      (src.nodata ≠ some value → nv ≠ some value →
        sample_raster_value src lon lat scale nv = some (value * scale)) ∧
      (nv = some value → INat.sample_raster_value src lon lat scale nv = none) ∧
      (nv ≠ some value →
        INat.sample_raster_value src lon lat scale nv = some (value * scale))) ∧
    (∀ (src : Raster) (lon lat scale : ℚ) (nv : Option ℚ),
      sample_raster_value src lon lat scale nv =
        sampleDeclaredFirst src lon lat scale nv) := by
  constructor
  · intro src lon lat scale nv value h1 h2 h3 h4 hv
    have hb : 0 ≤ (src.idx lon lat).1 ∧ (src.idx lon lat).1 < (src.height : ℤ) ∧
        0 ≤ (src.idx lon lat).2 ∧ (src.idx lon lat).2 < (src.width : ℤ) :=
      ⟨h1, h2, h3, h4⟩
    have hsv : sample_raster_value src lon lat scale nv =
        (if nv = some value then none
         else if src.nodata = some value then none
         else some (value * scale)) := by
      unfold sample_raster_value
      dsimp only
      rw [if_pos hb, hv]
    have hin : INat.sample_raster_value src lon lat scale nv =
        (if nv = some value then none else some (value * scale)) := by
      unfold INat.sample_raster_value
      dsimp only
      rw [numpy_get_in_range h1 h2 h3 h4, hv]
    refine ⟨?_, ?_, ?_, ?_⟩
    · intro hmatch
      rw [hsv]
      by_cases hnv : nv = some value
      · rw [if_pos hnv]
      · rw [if_neg hnv, if_pos (hmatch.resolve_right hnv)]
    · intro hnd hnv
      rw [hsv, if_neg hnv, if_neg hnd]
    · intro hnv
      rw [hin, if_pos hnv]
    · intro hnv
      rw [hin, if_neg hnv]
  · intro src lon lat scale nv
    unfold sample_raster_value sampleDeclaredFirst
    dsimp only
    by_cases hb : 0 ≤ (src.idx lon lat).1 ∧ (src.idx lon lat).1 < (src.height : ℤ) ∧
        0 ≤ (src.idx lon lat).2 ∧ (src.idx lon lat).2 < (src.width : ℤ)
    · rw [if_pos hb, if_pos hb]
      by_cases hnv : nv = some (src.data (src.idx lon lat).1.toNat (src.idx lon lat).2.toNat) <;>
        by_cases hnd : src.nodata = some (src.data (src.idx lon lat).1.toNat (src.idx lon lat).2.toNat) <;>
        simp [hnv, hnd]
    · rw [if_neg hb, if_neg hb]

/-- Witness for C3: the spec's scale example — a raw stored value of 5000 with
scale 1/10000 yields 0.5. -/
theorem point_sampler_nodata_scale_witness :
    sample_raster_value ⟨1, 1, (fun _ _ => 5000), none, (fun _ _ => (0, 0))⟩
      0 0 (1/10000) none = some (1/2) := by
  have h := ((point_sampler_nodata_scale.1
      ⟨1, 1, (fun _ _ => 5000), none, (fun _ _ => (0, 0))⟩
      0 0 (1/10000) none 5000 (by decide) (by decide) (by decide) (by decide)
      rfl).2.1 (by decide) (by decide))
  rw [h]
  norm_num

/-- C3 counterexample: a 1×1 raster whose declared nodata sentinel is 9 and
whose pixel holds 9.  The `iNat.py` sampler returns the sentinel value 9
(scaled by the default 1) instead of NoData; the `enrich_with_rasters.py`
sampler correctly returns NoData on the same input. -/
theorem inat_sampler_ignores_declared_nodata_counterexample :
    INat.sample_raster_value ⟨1, 1, (fun _ _ => 9), some 9, (fun _ _ => (0, 0))⟩
        0 0 1 none = some 9 ∧
      sample_raster_value ⟨1, 1, (fun _ _ => 9), some 9, (fun _ _ => (0, 0))⟩
        0 0 1 none = none := by
  constructor
  · unfold INat.sample_raster_value numpy_get wrapIdx
    norm_num
  · unfold sample_raster_value
    norm_num

theorem map_id_of {α : Type _} {l : List α} {f : α → α} (h : ∀ x ∈ l, f x = x) :
    l.map f = l := by
  induction l with
  | nil => rfl
  | cons a l ih =>
    simp only [List.map_cons, h a (List.mem_cons_self a l)]
    rw [ih (fun x hx => h x (List.mem_cons_of_mem a hx))]

theorem foldl_map_fix {ι α κ : Type _} (H : ι → List κ → α → α) (k : α → κ)
    (hpres : ∀ i ks r, k (H i ks r) = k r) :
    ∀ (l : List ι) (acc : List α) (ks : List κ), acc.map k = ks →
      l.foldl (fun a i => a.map (fun r => H i (a.map k) r)) acc =
        acc.map (fun r => l.foldl (fun r i => H i ks r) r) := by
  intro l
  induction l with
  | nil =>
    intro acc ks _
    simp
  | cons i l ih =>
    intro acc ks hks
    simp only [List.foldl_cons]
    rw [hks]
    have hks2 : (acc.map (fun r => H i ks r)).map k = ks := by
      rw [List.map_map]
      rw [show (k ∘ fun r => H i ks r) = k from funext fun r => hpres i ks r]
      exact hks
    rw [ih (acc.map (fun r => H i ks r)) ks hks2, List.map_map]
    rfl

theorem foldl_single_touch_none {α : Type _} (step : ℤ → α → α) (dOf : α → Option ℤ)
    (hskip : ∀ d r, dOf r ≠ some d → step d r = r) :
    ∀ (ds : List ℤ) (r : α), dOf r = none →
      ds.foldl (fun r d => step d r) r = r := by
  intro ds
  induction ds with
  | nil => intro r _; rfl
  | cons d ds ih =>
    intro r hr
    simp only [List.foldl_cons]
    rw [hskip d r (by rw [hr]; exact fun h => Option.noConfusion h)]
    exact ih r hr

theorem foldl_single_touch_some {α : Type _} (step : ℤ → α → α) (dOf : α → Option ℤ)
    (hpres : ∀ d r, dOf (step d r) = dOf r)
    (hskip : ∀ d r, dOf r ≠ some d → step d r = r) :
    ∀ (ds : List ℤ), ds.Nodup → ∀ (r : α) (d0 : ℤ), dOf r = some d0 →
      ds.foldl (fun r d => step d r) r = if d0 ∈ ds then step d0 r else r := by
  intro ds
  induction ds with
  | nil =>
    intro _ r d0 _
    simp
  | cons d ds ih =>
    intro hnd r d0 hr
    have hnd' := List.nodup_cons.mp hnd
    simp only [List.foldl_cons]
    by_cases hdd : d0 = d
    · subst hdd
      have hr2 : dOf (step d0 r) = some d0 := by rw [hpres, hr]
      rw [ih hnd'.2 (step d0 r) d0 hr2, if_neg hnd'.1,
        if_pos (List.mem_cons_self d0 ds)]
    · rw [hskip d r (by rw [hr]; exact fun h => hdd (Option.some.inj h))]
      rw [ih hnd'.2 r d0 hr]
      by_cases hmem : d0 ∈ ds
      · rw [if_pos hmem, if_pos (List.mem_cons_of_mem d hmem)]
      · rw [if_neg hmem, if_neg (by
          intro hc
          rcases List.mem_cons.mp hc with h | h
          · exact hdd h
          · exact hmem h)]

theorem pdUnique_mem {a : ℤ} : ∀ {l : List ℤ}, a ∈ pdUnique l ↔ a ∈ l := by
  intro l
  induction l using pdUnique.induct with
  | case1 => simp [pdUnique]
  | case2 b l ih =>
    rw [pdUnique]
    by_cases hab : a = b
    · subst hab
      simp
    · simp only [List.mem_cons, ih, List.mem_filter]
      constructor
      · intro h
        rcases h with h | h
        · exact Or.inl h
        · exact Or.inr h.1
      · intro h
        rcases h with h | h
        · exact Or.inl h
        · exact Or.inr ⟨h, by simpa using hab⟩

theorem pdUnique_nodup : ∀ (l : List ℤ), (pdUnique l).Nodup := by
  intro l
  induction l using pdUnique.induct with
  | case1 => simp [pdUnique]
  | case2 b l ih =>
    rw [pdUnique]
    refine List.nodup_cons.mpr ⟨?_, ih⟩
    rw [pdUnique_mem]
    simp only [List.mem_filter]
    intro hc
    simpa using hc.2

theorem uniqueDates_nodup (rows : List Row) : (uniqueDates rows).Nodup :=
  ((List.perm_insertionSort _ _).nodup_iff).mpr (pdUnique_nodup _)

theorem mem_uniqueDates {rows : List Row} {d : ℤ} :
    d ∈ uniqueDates rows ↔ ∃ r ∈ rows, r.date = some d := by
  unfold uniqueDates
  rw [(List.perm_insertionSort _ _).mem_iff, pdUnique_mem, List.mem_filterMap]

theorem rowUpdateNS_shape (env : Env) (d : ℤ) (a b : ℚ) (r : Row) :
    ∃ n s, rowUpdateNS env d a b r = { r with ndvi := n, soil_moisture := s } := by
  unfold rowUpdateNS
  by_cases h1 : env.exists_file (FileKey.ndviFile d a b) <;>
    by_cases h2 : env.exists_file (FileKey.soilFile d) <;>
    simp only [h1, h2, if_true, if_false, Bool.false_eq_true] <;>
    exact ⟨_, _, rfl⟩

theorem rowUpdateNS_wiped (env : Env) (d : ℤ) (a b : ℚ) (r : Row) :
    rowUpdateNS env d a b (wipeNS r) =
      { r with
          ndvi := if env.exists_file (FileKey.ndviFile d a b) then
            env.ndvi_sample (FileKey.ndviFile d a b) r.lon r.lat else none,
          soil_moisture := if env.exists_file (FileKey.soilFile d) then
            env.soil_sample (FileKey.soilFile d) r.lat r.lon d else none } := by
  unfold rowUpdateNS wipeNS
  by_cases h1 : env.exists_file (FileKey.ndviFile d a b) <;>
    by_cases h2 : env.exists_file (FileKey.soilFile d) <;>
    simp [h1, h2]

theorem rowStepE_shape (env : Env) (ks : List (Option ℤ × ℚ × ℚ)) (d : ℤ) (r : Row) :
    ∃ n s, rowStepE env ks d r = { r with ndvi := n, soil_moisture := s } := by
  unfold rowStepE
  by_cases hd : r.date = some d
  · rw [if_pos hd]
    cases hf : ks.find? (fun k => decide (k.1 = some d)) with
    | none => exact ⟨r.ndvi, r.soil_moisture, rfl⟩
    | some f => exact rowUpdateNS_shape env d f.2.1 f.2.2 r
  · rw [if_neg hd]
    exact ⟨r.ndvi, r.soil_moisture, rfl⟩

theorem rowStepE_skip (env : Env) (ks : List (Option ℤ × ℚ × ℚ)) (d : ℤ) (r : Row)
    (h : r.date ≠ some d) : rowStepE env ks d r = r := by
  unfold rowStepE
  rw [if_neg h]

theorem rowStepE_keyOf (env : Env) (ks : List (Option ℤ × ℚ × ℚ)) (d : ℤ) (r : Row) :
    keyOf (rowStepE env ks d r) = keyOf r := by
  obtain ⟨n, s, h⟩ := rowStepE_shape env ks d r
  rw [h]
  rfl

theorem rowStepE_date (env : Env) (ks : List (Option ℤ × ℚ × ℚ)) (d : ℤ) (r : Row) :
    (rowStepE env ks d r).date = r.date := by
  obtain ⟨n, s, h⟩ := rowStepE_shape env ks d r
  rw [h]

theorem enrichDateGroup_eq_map (env : Env) (d : ℤ) (rows : List Row) :
    enrichDateGroup env d rows = rows.map (fun r => rowStepE env (rows.map keyOf) d r) := by
  have hfind : (rows.map keyOf).find? (fun k => decide (k.1 = some d)) =
      (rows.find? (fun r => decide (r.date = some d))).map keyOf := by
    rw [List.find?_map]
    rfl
  unfold enrichDateGroup
  cases hf : rows.find? (fun r => decide (r.date = some d)) with
  | none =>
    have hnone : ∀ r ∈ rows, ¬(r.date = some d) := by
      intro r hr
      have := List.find?_eq_none.mp hf r hr
      simpa using this
    symm
    apply map_id_of
    intro r hr
    exact rowStepE_skip env _ d r (hnone r hr)
  | some f =>
    dsimp only
    by_cases hflag : env.exists_file (FileKey.ndviFile d f.lat f.lon) = false ∧
        env.exists_file (FileKey.soilFile d) = false
    · rw [if_pos hflag]
      symm
      apply map_id_of
      intro r _
      unfold rowStepE
      by_cases hrd : r.date = some d
      · rw [if_pos hrd, hfind, hf]
        show rowUpdateNS env d f.lat f.lon r = r
        unfold rowUpdateNS
        simp [hflag.1, hflag.2]
      · rw [if_neg hrd]
    · rw [if_neg hflag]
      apply List.map_congr_left
      intro r _
      unfold rowStepE
      by_cases hrd : r.date = some d
      · rw [if_pos hrd, hfind, hf, if_pos hrd]
        rfl
      · rw [if_neg hrd, if_neg hrd]

theorem applyE_wiped (env : Env) (ks : List (Option ℤ × ℚ × ℚ)) (ds : List ℤ)
    (hnd : ds.Nodup) (r : Row) :
    ds.foldl (fun r d => rowStepE env ks d r) (wipeNS r) =
      { r with
          ndvi := ndviValue env ks ds r.date r.lon r.lat,
          soil_moisture := soilValue env ks ds r.date r.lat r.lon } := by
  cases hd : r.date with
  | none =>
    rw [foldl_single_touch_none (fun d r => rowStepE env ks d r) (fun r => r.date)
      (fun d r h => rowStepE_skip env ks d r h) ds (wipeNS r)
      (by show (wipeNS r).date = none; unfold wipeNS; exact hd)]
    unfold ndviValue soilValue wipeNS
    rw [hd]
  | some d0 =>
    have hw : (wipeNS r).date = some d0 := hd
    rw [foldl_single_touch_some (fun d r => rowStepE env ks d r) (fun r => r.date)
      (fun d r => rowStepE_date env ks d r)
      (fun d r h => rowStepE_skip env ks d r h) ds hnd (wipeNS r) d0 hw]
    by_cases hmem : d0 ∈ ds
    · rw [if_pos hmem]
      unfold rowStepE
      rw [if_pos hw]
      cases hf : ks.find? (fun k => decide (k.1 = some d0)) with
      | none =>
        unfold ndviValue soilValue
        simp only [hmem, if_true, hf]
        unfold wipeNS
        rw [hd]
      | some f =>
        show rowUpdateNS env d0 f.2.1 f.2.2 (wipeNS r) = _
        rw [rowUpdateNS_wiped]
        unfold ndviValue soilValue
        simp only [hmem, if_true, hf]
        rw [hd]
    · rw [if_neg hmem]
      unfold ndviValue soilValue
      simp only [hmem, if_false]
      unfold wipeNS
      rw [hd]

theorem enrich_eq_map (env : Env) (rows : List Row) :
    enrich_df_with_rasters env rows =
      rows.map (fun r =>
        { r with
            ndvi := ndviValue env (rows.map keyOf) (uniqueDates rows) r.date r.lon r.lat,
            soil_moisture :=
              soilValue env (rows.map keyOf) (uniqueDates rows) r.date r.lat r.lon }) := by
  have hkeys : (rows.map wipeNS).map keyOf = rows.map keyOf := by
    rw [List.map_map]
    rfl
  have hfold := foldl_map_fix (fun d ks r => rowStepE env ks d r) keyOf
    (fun i ks r => rowStepE_keyOf env ks i r) (uniqueDates (rows.map wipeNS))
    (rows.map wipeNS) (rows.map keyOf) hkeys
  have hdates : uniqueDates (rows.map wipeNS) = uniqueDates rows := by
    unfold uniqueDates
    rw [List.filterMap_map]
    rfl
  calc enrich_df_with_rasters env rows
      = (uniqueDates (rows.map wipeNS)).foldl
          (fun acc d => enrichDateGroup env d acc) (rows.map wipeNS) := rfl
    _ = (uniqueDates (rows.map wipeNS)).foldl
          (fun acc d => acc.map (fun r => rowStepE env (acc.map keyOf) d r))
          (rows.map wipeNS) := by
        rw [show (fun (acc : List Row) (d : ℤ) => enrichDateGroup env d acc) =
            (fun (acc : List Row) (d : ℤ) =>
              acc.map (fun r => rowStepE env (acc.map keyOf) d r)) from
          funext fun acc => funext fun d => enrichDateGroup_eq_map env d acc]
    _ = (rows.map wipeNS).map (fun r =>
          (uniqueDates (rows.map wipeNS)).foldl
            (fun r d => rowStepE env (rows.map keyOf) d r) r) := hfold
    _ = rows.map (fun r => (uniqueDates rows).foldl
          (fun r d => rowStepE env (rows.map keyOf) d r) (wipeNS r)) := by
        rw [hdates, List.map_map]
        rfl
    _ = rows.map (fun r =>
        { r with
            ndvi := ndviValue env (rows.map keyOf) (uniqueDates rows) r.date r.lon r.lat,
            soil_moisture :=
              soilValue env (rows.map keyOf) (uniqueDates rows) r.date r.lat r.lon }) := by
        apply List.map_congr_left
        intro r _
        exact applyE_wiped env (rows.map keyOf) (uniqueDates rows)
          (uniqueDates_nodup rows) r

theorem enrich_map_keyOf (env : Env) (rows : List Row) :
    (enrich_df_with_rasters env rows).map keyOf = rows.map keyOf := by
  rw [enrich_eq_map, List.map_map]
  rfl

theorem enrich_filterMap_date (env : Env) (rows : List Row) :
    (enrich_df_with_rasters env rows).filterMap (fun r => r.date) =
      rows.filterMap (fun r => r.date) := by
  rw [enrich_eq_map, List.filterMap_map]
  rfl

theorem enrich_uniqueDates (env : Env) (rows : List Row) :
    uniqueDates (enrich_df_with_rasters env rows) = uniqueDates rows := by
  unfold uniqueDates
  rw [enrich_filterMap_date]

theorem enrich_idem (env : Env) (rows : List Row) :
    enrich_df_with_rasters env (enrich_df_with_rasters env rows) =
      enrich_df_with_rasters env rows := by
  rw [enrich_eq_map env (enrich_df_with_rasters env rows), enrich_map_keyOf,
    enrich_uniqueDates, enrich_eq_map env rows, List.map_map]
  rfl

theorem foldl_map_comm {ι α : Type _} (h : ι → α → α) :
    ∀ (l : List ι) (acc : List α),
      l.foldl (fun a i => a.map (h i)) acc =
        acc.map (fun r => l.foldl (fun r i => h i r) r) := by
  intro l
  induction l with
  | nil =>
    intro acc
    simp
  | cons i l ih =>
    intro acc
    simp only [List.foldl_cons]
    rw [ih (acc.map (h i)), List.map_map]
    rfl

theorem precipOffsetUpd_shape (env : Env) (date : ℤ) (dOff : ℕ) (r : Row) :
    ∃ p, precipOffsetUpd env date dOff r = { r with prcp := p } := by
  unfold precipOffsetUpd
  by_cases hex : env.exists_file (FileKey.precipFile (date - dOff))
  · rw [if_pos hex]
    by_cases hd : r.date = some date
    · rw [if_pos hd]
      exact ⟨_, rfl⟩
    · rw [if_neg hd]
      exact ⟨r.prcp, rfl⟩
  · rw [if_neg hex]
    exact ⟨r.prcp, rfl⟩

theorem precipOffsetUpd_skip (env : Env) (date : ℤ) (dOff : ℕ) (r : Row)
    (h : r.date ≠ some date) : precipOffsetUpd env date dOff r = r := by
  unfold precipOffsetUpd
  by_cases hex : env.exists_file (FileKey.precipFile (date - dOff))
  · rw [if_pos hex, if_neg h]
  · rw [if_neg hex]

theorem precipDateStep_eq_map (env : Env) (date : ℤ) (rows : List Row) :
    precipDateStep env date rows =
      rows.map (fun r =>
        (List.range 7).foldl (fun r dOff => precipOffsetUpd env date dOff r) r) := by
  unfold precipDateStep
  rw [show (fun (acc : List Row) (dOff : ℕ) =>
      if env.exists_file (FileKey.precipFile (date - dOff)) then
        acc.map (fun r =>
          if r.date = some date then
            let v := env.sample (FileKey.precipFile (date - dOff)) r.lon r.lat 1 none
            { r with prcp := r.prcp.set dOff v }
          else r)
      else acc) =
      (fun (acc : List Row) (dOff : ℕ) =>
        acc.map (fun r => precipOffsetUpd env date dOff r)) from
    funext fun acc => funext fun dOff => by
      by_cases hex : env.exists_file (FileKey.precipFile (date - dOff))
      · rw [if_pos hex]
        apply List.map_congr_left
        intro r _
        unfold precipOffsetUpd
        rw [if_pos hex]
      · rw [if_neg hex]
        symm
        apply map_id_of
        intro r _
        unfold precipOffsetUpd
        rw [if_neg hex]]
  exact foldl_map_comm (fun dOff r => precipOffsetUpd env date dOff r) _ rows

theorem range_fold_prcp (env : Env) (date : ℤ) :
    ∀ (l : List ℕ) (r : Row), r.date = some date →
      l.foldl (fun r k => precipOffsetUpd env date k r) r =
        { r with prcp := l.foldl (fun p (k : ℕ) =>
            if env.exists_file (FileKey.precipFile (date - k)) then
              p.set k (env.sample (FileKey.precipFile (date - k)) r.lon r.lat 1 none)
            else p) r.prcp } := by
  intro l
  induction l with
  | nil =>
    intro r _
    rfl
  | cons k l ih =>
    intro r hd
    simp only [List.foldl_cons]
    by_cases hex : env.exists_file (FileKey.precipFile (date - k))
    · have hupd : precipOffsetUpd env date k r =
          { r with prcp := r.prcp.set k (env.sample (FileKey.precipFile (date - k)) r.lon r.lat 1 none) } := by
        unfold precipOffsetUpd
        rw [if_pos hex, if_pos hd]
      rw [hupd, ih { r with prcp := r.prcp.set k (env.sample (FileKey.precipFile (date - k)) r.lon r.lat 1 none) } hd, if_pos hex]
    · have hupd : precipOffsetUpd env date k r = r := by
        unfold precipOffsetUpd
        rw [if_neg hex]
      rw [hupd, ih _ hd, if_neg hex]

theorem stepP_date (env : Env) (date : ℤ) (r : Row) :
    ((List.range 7).foldl (fun r k => precipOffsetUpd env date k r) r).date = r.date := by
  generalize List.range 7 = l
  induction l generalizing r with
  | nil => rfl
  | cons k l ih =>
    simp only [List.foldl_cons]
    rw [ih (precipOffsetUpd env date k r)]
    obtain ⟨p, hp⟩ := precipOffsetUpd_shape env date k r
    rw [hp]

theorem stepP_skip (env : Env) (date : ℤ) (r : Row) (h : r.date ≠ some date) :
    (List.range 7).foldl (fun r k => precipOffsetUpd env date k r) r = r := by
  generalize List.range 7 = l
  induction l generalizing r with
  | nil => rfl
  | cons k l ih =>
    simp only [List.foldl_cons]
    rw [precipOffsetUpd_skip env date k r h, ih r h]

theorem applyP_wiped (env : Env) (dsP : List ℤ) (hnd : dsP.Nodup) (r : Row) :
    dsP.foldl (fun r date =>
        (List.range 7).foldl (fun r k => precipOffsetUpd env date k r) r) (wipeP r) =
      { r with prcp := prcpValues env dsP r.date r.lon r.lat } := by
  cases hd : r.date with
  | none =>
    rw [foldl_single_touch_none
      (fun date r => (List.range 7).foldl (fun r k => precipOffsetUpd env date k r) r)
      (fun r => r.date)
      (fun date r h => stepP_skip env date r h) dsP (wipeP r)
      (by show (wipeP r).date = none; exact hd)]
    unfold prcpValues wipeP
    rw [hd]
  | some d0 =>
    have hw : (wipeP r).date = some d0 := hd
    rw [foldl_single_touch_some
      (fun date r => (List.range 7).foldl (fun r k => precipOffsetUpd env date k r) r)
      (fun r => r.date)
      (fun date r => stepP_date env date r)
      (fun date r h => stepP_skip env date r h) dsP hnd (wipeP r) d0 hw]
    by_cases hmem : d0 ∈ dsP
    · rw [if_pos hmem, range_fold_prcp env d0 (List.range 7) (wipeP r) hw]
      unfold prcpValues wipeP
      simp only [hmem, if_true]
      rw [hd]
    · rw [if_neg hmem]
      unfold prcpValues wipeP
      simp only [hmem, if_false]
      rw [hd]

theorem precip_eq_map (env : Env) (rows : List Row) :
    enrich_with_precip env rows =
      rows.map (fun r =>
        { r with
            prcp := prcpValues env (pdUnique (rows.filterMap (fun r => r.date)))
              r.date r.lon r.lat }) := by
  have hdates : (rows.map wipeP).filterMap (fun r => r.date) =
      rows.filterMap (fun r => r.date) := by
    rw [List.filterMap_map]
    rfl
  calc enrich_with_precip env rows
      = (pdUnique ((rows.map wipeP).filterMap (fun r => r.date))).foldl
          (fun acc date => precipDateStep env date acc) (rows.map wipeP) := rfl
    _ = (pdUnique (rows.filterMap (fun r => r.date))).foldl
          (fun acc date => acc.map (fun r =>
            (List.range 7).foldl (fun r k => precipOffsetUpd env date k r) r))
          (rows.map wipeP) := by
        rw [hdates,
          show (fun (acc : List Row) (date : ℤ) => precipDateStep env date acc) =
            (fun (acc : List Row) (date : ℤ) => acc.map (fun r =>
              (List.range 7).foldl (fun r k => precipOffsetUpd env date k r) r)) from
          funext fun acc => funext fun date => precipDateStep_eq_map env date acc]
    _ = (rows.map wipeP).map (fun r =>
          (pdUnique (rows.filterMap (fun r => r.date))).foldl (fun r date =>
            (List.range 7).foldl (fun r k => precipOffsetUpd env date k r) r) r) :=
        foldl_map_comm _ _ _
    _ = rows.map (fun r =>
        { r with
            prcp := prcpValues env (pdUnique (rows.filterMap (fun r => r.date)))
              r.date r.lon r.lat }) := by
        rw [List.map_map]
        apply List.map_congr_left
        intro r _
        exact applyP_wiped env _ (pdUnique_nodup _) r

theorem precip_map_keyOf (env : Env) (rows : List Row) :
    (enrich_with_precip env rows).map keyOf = rows.map keyOf := by
  rw [precip_eq_map, List.map_map]
  rfl

theorem precip_filterMap_date (env : Env) (rows : List Row) :
    (enrich_with_precip env rows).filterMap (fun r => r.date) =
      rows.filterMap (fun r => r.date) := by
  rw [precip_eq_map, List.filterMap_map]
  rfl

theorem precip_uniqueDates (env : Env) (rows : List Row) :
    uniqueDates (enrich_with_precip env rows) = uniqueDates rows := by
  unfold uniqueDates
  rw [precip_filterMap_date]

theorem precip_idem (env : Env) (rows : List Row) :
    enrich_with_precip env (enrich_with_precip env rows) =
      enrich_with_precip env rows := by
  rw [precip_eq_map env (enrich_with_precip env rows), precip_filterMap_date,
    precip_eq_map env rows, List.map_map]
  rfl

theorem orchestrate_eq_map (env : Env) (rows : List Row) :
    enrich_with_precip env (enrich_df_with_rasters env rows) =
      rows.map (fun r =>
        { r with
            ndvi := ndviValue env (rows.map keyOf) (uniqueDates rows) r.date r.lon r.lat,
            soil_moisture :=
              soilValue env (rows.map keyOf) (uniqueDates rows) r.date r.lat r.lon,
            prcp := prcpValues env (pdUnique (rows.filterMap (fun r => r.date)))
              r.date r.lon r.lat }) := by
  rw [precip_eq_map env (enrich_df_with_rasters env rows), enrich_filterMap_date,
    enrich_eq_map env rows, List.map_map]
  rfl

theorem orchestrate_map_keyOf (env : Env) (rows : List Row) :
    (enrich_with_precip env (enrich_df_with_rasters env rows)).map keyOf =
      rows.map keyOf := by
  rw [orchestrate_eq_map, List.map_map]
  rfl

theorem orchestrate_filterMap_date (env : Env) (rows : List Row) :
    (enrich_with_precip env (enrich_df_with_rasters env rows)).filterMap
        (fun r => r.date) = rows.filterMap (fun r => r.date) := by
  rw [orchestrate_eq_map, List.filterMap_map]
  rfl

theorem orchestrate_idem (env : Env) (rows : List Row) :
    enrich_with_precip env (enrich_df_with_rasters env
        (enrich_with_precip env (enrich_df_with_rasters env rows))) =
      enrich_with_precip env (enrich_df_with_rasters env rows) := by
  rw [orchestrate_eq_map env (enrich_with_precip env (enrich_df_with_rasters env rows)),
    orchestrate_map_keyOf, orchestrate_filterMap_date]
  have : uniqueDates (enrich_with_precip env (enrich_df_with_rasters env rows)) =
      uniqueDates rows := by
    rw [precip_uniqueDates, enrich_uniqueDates]
  rw [this, orchestrate_eq_map env rows, List.map_map]
  rfl

/-- C4: running the Enrichment Orchestrator a second time over an
already-enriched table with unchanged sources (the same `Env`) reproduces the
first run's output exactly — for the raster pass alone, the precipitation
pass alone, and their composition as run by the script.  Identical lists mean
the same columns with the same values, no column drift, and no duplicated
rows. -/
theorem enrichment_orchestrator_idempotent :
    ∀ (env : Env) (rows : List Row),
      enrich_df_with_rasters env (enrich_df_with_rasters env rows) =
        enrich_df_with_rasters env rows ∧
      enrich_with_precip env (enrich_with_precip env rows) =
        enrich_with_precip env rows ∧
      enrich_with_precip env (enrich_df_with_rasters env
          (enrich_with_precip env (enrich_df_with_rasters env rows))) =
        enrich_with_precip env (enrich_df_with_rasters env rows) :=
  fun env rows => ⟨enrich_idem env rows, precip_idem env rows, orchestrate_idem env rows⟩

theorem enrich_getElem (env : Env) (rows : List Row) (i : ℕ) (r : Row) (d : ℤ)
    (f : Row) (hi : rows[i]? = some r) (hd : r.date = some d)
    (hf : rows.find? (fun x => decide (x.date = some d)) = some f) :
    (enrich_df_with_rasters env rows)[i]? = some
      { r with
          ndvi := if env.exists_file (FileKey.ndviFile d f.lat f.lon) then
            env.ndvi_sample (FileKey.ndviFile d f.lat f.lon) r.lon r.lat else none,
          soil_moisture := if env.exists_file (FileKey.soilFile d) then
            env.soil_sample (FileKey.soilFile d) r.lat r.lon d else none } := by
  rw [enrich_eq_map, List.getElem?_map, hi]
  have hmem : d ∈ uniqueDates rows :=
    mem_uniqueDates.mpr ⟨r, List.mem_iff_getElem?.mpr ⟨i, hi⟩, hd⟩
  have hkf : (rows.map keyOf).find? (fun k => decide (k.1 = some d)) =
      some (keyOf f) := by
    rw [List.find?_map,
      show ((fun (k : Option ℤ × ℚ × ℚ) => decide (k.1 = some d)) ∘ keyOf) =
        (fun (x : Row) => decide (x.date = some d)) from rfl, hf]
    rfl
  show some _ = some _
  congr 1
  unfold ndviValue soilValue
  simp only [hd, hmem, if_true, hkf]
  rfl

theorem foldl_set_get {α : Type _} (cnd : ℕ → Prop) [DecidablePred cnd] (v : ℕ → α) :
    ∀ (js : List ℕ) (l : List α) (k : ℕ), js.Nodup → k < l.length →
      (js.foldl (fun l i => if cnd i then l.set i (v i) else l) l)[k]? =
        if k ∈ js ∧ cnd k then some (v k) else l[k]? := by
  intro js
  induction js with
  | nil =>
    intro l k _ _
    simp
  | cons j js ih =>
    intro l k hnd hk
    have hnd' := List.nodup_cons.mp hnd
    simp only [List.foldl_cons]
    have hlen : (if cnd j then l.set j (v j) else l).length = l.length := by
      by_cases hc : cnd j <;> simp [hc]
    rw [ih _ k hnd'.2 (by rw [hlen]; exact hk)]
    by_cases hkj : k = j
    · subst hkj
      rw [if_neg (fun hcon => hnd'.1 hcon.1)]
      by_cases hc : cnd k
      · rw [if_pos hc, if_pos ⟨List.mem_cons_self k js, hc⟩, List.getElem?_set_self hk]
      · rw [if_neg hc, if_neg (fun hcon => hc hcon.2)]
    · have hsame : (if cnd j then l.set j (v j) else l)[k]? = l[k]? := by
        by_cases hc : cnd j
        · rw [if_pos hc, List.getElem?_set_ne (fun h => hkj h.symm)]
        · rw [if_neg hc]
      rw [hsame]
      by_cases hkin : k ∈ js
      · by_cases hc : cnd k
        · rw [if_pos ⟨hkin, hc⟩, if_pos ⟨List.mem_cons_of_mem j hkin, hc⟩]
        · rw [if_neg (fun h => hc h.2), if_neg (fun h => hc h.2)]
      · rw [if_neg (fun h => hkin h.1), if_neg (fun h => by
          rcases List.mem_cons.mp h.1 with hh | hh
          · exact hkj hh
          · exact hkin hh)]

theorem prcpValues_get (env : Env) (dsP : List ℤ) (dd : ℤ) (lon lat : ℚ) (k : ℕ)
    (hk : k < 7) (hmem : dd ∈ dsP) :
    (prcpValues env dsP (some dd) lon lat)[k]? =
      some (if env.exists_file (FileKey.precipFile (dd - k)) then
        env.sample (FileKey.precipFile (dd - k)) lon lat 1 none else none) := by
  unfold prcpValues
  simp only [hmem, if_true]
  have h : ((List.range 7).foldl (fun l (dOff : ℕ) =>
      if env.exists_file (FileKey.precipFile (dd - dOff)) then
        l.set dOff (env.sample (FileKey.precipFile (dd - dOff)) lon lat 1 none)
      else l) (List.replicate 7 (none : Option ℚ)))[k]? =
      if k ∈ List.range 7 ∧ env.exists_file (FileKey.precipFile (dd - k)) = true then
        some (env.sample (FileKey.precipFile (dd - k)) lon lat 1 none)
      else (List.replicate 7 (none : Option ℚ))[k]? :=
    foldl_set_get _ _ (List.range 7) (List.replicate 7 none) k (List.nodup_range 7)
      (by simpa using hk)
  rw [h]
  by_cases hex : env.exists_file (FileKey.precipFile (dd - k)) = true
  · rw [if_pos ⟨List.mem_range.mpr hk, hex⟩, if_pos hex]
  · rw [if_neg (fun hcon => hex hcon.2), if_neg hex, List.getElem?_replicate,
      if_pos hk]

/-- C10: inside `enrich_df_with_rasters` the NDVI source path of a date group
is built from the latitude and longitude of the group's first row only
(`date_df['lat'].iloc[0]`); every row of the date — including rows at other
locations — is sampled from that single file when it exists, and a row of the
date keeps null for both NDVI and soil moisture when neither that NDVI file
nor the date's soil file exists (both conditional values collapse to
`none`). -/
theorem ndvi_path_from_first_row :
    ∀ (env : Env) (rows : List Row) (i : ℕ) (r : Row) (d : ℤ) (f : Row),
      rows[i]? = some r → r.date = some d →
      rows.find? (fun x => decide (x.date = some d)) = some f →
      (enrich_df_with_rasters env rows)[i]? = some
        { r with
            ndvi := if env.exists_file (FileKey.ndviFile d f.lat f.lon) then
              env.ndvi_sample (FileKey.ndviFile d f.lat f.lon) r.lon r.lat else none,
            soil_moisture := if env.exists_file (FileKey.soilFile d) then
              env.soil_sample (FileKey.soilFile d) r.lat r.lon d else none } :=
  fun env rows i r d f hi hd hf => enrich_getElem env rows i r d f hi hd hf

/-- Witness for C10: in a two-row date group at distinct locations, the
second row's NDVI is sampled from the file named after the first row's
coordinates — the probing environment stores the file's latitude (40, the
first row's) in the sample, and the second row (at latitude 10) receives it. -/
theorem ndvi_path_from_first_row_witness :
    (enrich_df_with_rasters envNdviProbe rowsTwoLoc)[1]? =
      some { mkRow 2 (some 5) 10 20 none with ndvi := some 40 } := by
  have h := ndvi_path_from_first_row envNdviProbe rowsTwoLoc 1
    (mkRow 2 (some 5) 10 20 none) 5 (mkRow 1 (some 5) 40 (-105) none)
    (by decide) (by decide) (by decide)
  rw [h]
  rfl

/-- C9: a variable whose source file is absent for a date leaves null on
every row of that date while other variables and other dates still proceed:
if the date's NDVI file is missing, each row of the date ends with a null
`ndvi` while its soil moisture is still sampled whenever the soil file
exists; and each precipitation lookback offset k is independently subject to
per-day absence — a row of date d gets `prcp_dk` equal to the sampled value
when `precip_{d-k}.tif` exists and null when it does not, with the pass total
(no run-time error). -/
theorem per_date_source_absence :
    (∀ (env : Env) (rows : List Row) (i : ℕ) (r : Row) (d : ℤ) (f : Row),
      rows[i]? = some r → r.date = some d →
      rows.find? (fun x => decide (x.date = some d)) = some f →
      ¬(env.exists_file (FileKey.ndviFile d f.lat f.lon) = true) →
      ∃ r2, (enrich_df_with_rasters env rows)[i]? = some r2 ∧ r2.ndvi = none ∧
        (env.exists_file (FileKey.soilFile d) = true →
          r2.soil_moisture = env.soil_sample (FileKey.soilFile d) r.lat r.lon d)) ∧
    (∀ (env : Env) (rows : List Row) (i : ℕ) (r : Row) (d : ℤ) (k : ℕ),
      rows[i]? = some r → r.date = some d → k < 7 →
      ∃ r2, (enrich_with_precip env rows)[i]? = some r2 ∧
        r2.prcp[k]? = some (if env.exists_file (FileKey.precipFile (d - k)) then
          env.sample (FileKey.precipFile (d - k)) r.lon r.lat 1 none else none)) := by
  constructor
  · intro env rows i r d f hi hd hf hnex
    refine ⟨_, enrich_getElem env rows i r d f hi hd hf, ?_, ?_⟩
    · show (if env.exists_file (FileKey.ndviFile d f.lat f.lon) then
        env.ndvi_sample (FileKey.ndviFile d f.lat f.lon) r.lon r.lat else none) = none
      rw [if_neg hnex]
    · intro hsoil
      show (if env.exists_file (FileKey.soilFile d) then
        env.soil_sample (FileKey.soilFile d) r.lat r.lon d else none) = _
      rw [if_pos hsoil]
  · intro env rows i r d k hi hd hk
    have hmem : d ∈ pdUnique (rows.filterMap (fun r => r.date)) := by
      rw [pdUnique_mem, List.mem_filterMap]
      exact ⟨r, List.mem_iff_getElem?.mpr ⟨i, hi⟩, hd⟩
    have hrow : (enrich_with_precip env rows)[i]? = some { r with prcp := prcpValues env (pdUnique (rows.filterMap (fun r => r.date))) r.date r.lon r.lat } := by
      rw [precip_eq_map, List.getElem?_map, hi]
      rfl
    refine ⟨_, hrow, ?_⟩
    show (prcpValues env (pdUnique (rows.filterMap (fun r => r.date))) r.date r.lon r.lat)[k]? = _
    rw [hd]
    exact prcpValues_get env _ d r.lon r.lat k hk hmem

/-- Witness for C9: three rows sharing day 0 at three distinct locations,
with only the offset-0 precipitation raster present — row 0 gets
`prcp_d0 = 5` (populated) and `prcp_d1` null, and with no NDVI file the
raster pass leaves `ndvi` null on row 0. -/
theorem per_date_source_absence_witness :
    (∃ r2, (enrich_with_precip envPrecipD0 rowsThreeLoc)[0]? = some r2 ∧
      r2.prcp[0]? = some (some 5)) ∧
    (∃ r2, (enrich_with_precip envPrecipD0 rowsThreeLoc)[0]? = some r2 ∧
      r2.prcp[1]? = some none) ∧
    (∃ r2, (enrich_df_with_rasters envPrecipD0 rowsThreeLoc)[0]? = some r2 ∧
      r2.ndvi = none) := by
  refine ⟨?_, ?_, ?_⟩
  · obtain ⟨r2, h1, h2⟩ := per_date_source_absence.2 envPrecipD0 rowsThreeLoc 0
      (mkRow 1 (some 0) 40 (-105) none) 0 0 (by decide) (by decide) (by decide)
    exact ⟨r2, h1, by rw [h2]; decide⟩
  · obtain ⟨r2, h1, h2⟩ := per_date_source_absence.2 envPrecipD0 rowsThreeLoc 0
      (mkRow 1 (some 0) 40 (-105) none) 0 1 (by decide) (by decide) (by decide)
    exact ⟨r2, h1, by rw [h2]; decide⟩
  · obtain ⟨r2, h1, h2, _⟩ := per_date_source_absence.1 envPrecipD0 rowsThreeLoc 0
      (mkRow 1 (some 0) 40 (-105) none) 0 (mkRow 1 (some 0) 40 (-105) none)
      (by decide) (by decide) (by decide) (by decide)
    exact ⟨r2, h1, h2⟩

theorem argminAux_eq_none {α : Type _} (key : α → ℕ) :
    ∀ (l : List α) (i : ℕ), argminAux key l i = none ↔ l = [] := by
  intro l i
  cases l with
  | nil => simp [argminAux]
  | cons c l =>
    simp only [argminAux]
    cases argminAux key l (i + 1) with
    | none => simp
    | some p =>
      obtain ⟨j, b⟩ := p
      by_cases hlt : key b < key c <;> simp [hlt]

theorem argminAux_spec {α : Type _} (key : α → ℕ) :
    ∀ (l : List α) (i j : ℕ) (b : α), argminAux key l i = some (j, b) →
      (∃ m, j = i + m ∧ l[m]? = some b) ∧ ∀ x ∈ l, key b ≤ key x := by
  intro l
  induction l with
  | nil =>
    intro i j b h
    exact absurd h (by simp [argminAux])
  | cons c l ih =>
    intro i j b h
    simp only [argminAux] at h
    cases h2 : argminAux key l (i + 1) with
    | none =>
      rw [h2] at h
      have hl : l = [] := (argminAux_eq_none key l (i + 1)).mp h2
      obtain ⟨hj, hb⟩ := Prod.mk.injEq .. ▸ Option.some.inj h
      subst hl
      refine ⟨⟨0, by omega, by rw [← hb]; simp⟩, ?_⟩
      intro x hx
      rcases List.mem_cons.mp hx with hh | hh
      · rw [hh, hb]
      · exact absurd hh (List.not_mem_nil x)
    | some p =>
      obtain ⟨j2, b2⟩ := p
      rw [h2] at h
      dsimp only at h
      obtain ⟨⟨m, hm, hget⟩, hmin⟩ := ih (i + 1) j2 b2 h2
      by_cases hlt : key b2 < key c
      · rw [if_pos hlt] at h
        obtain ⟨hj, hb⟩ := Prod.mk.injEq .. ▸ Option.some.inj h
        subst hj hb
        refine ⟨⟨m + 1, by omega, by simpa using hget⟩, ?_⟩
        intro x hx
        rcases List.mem_cons.mp hx with hh | hh
        · rw [hh]
          exact Nat.le_of_lt hlt
        · exact hmin x hh
      · rw [if_neg hlt] at h
        obtain ⟨hj, hb⟩ := Prod.mk.injEq .. ▸ Option.some.inj h
        subst hj hb
        refine ⟨⟨0, rfl, by simp⟩, ?_⟩
        intro x hx
        rcases List.mem_cons.mp hx with hh | hh
        · rw [hh]
        · exact Nat.le_trans (Nat.le_of_not_lt hlt) (hmin x hh)

/-- C8: the grid time-series sampler recognises the time dimension under
either alias (`time`, `valid_time`); when neither is present the sample
yields NoData (the raised error is caught and logged, the run continues)
rather than aborting.  When an alias is present it selects the single
nearest available time slice — the selected time coordinate minimises the
distance to the requested date, and the result reads exactly one slice, with
no interpolation across time — and bilinearly interpolates in space at the
exact coordinate: on the concrete 2×2 dataset the value at a grid node is
that node's value, the value at the cell centre is the average of the four
corners, and the value at a non-grid point is the linear blend (no snapping
to a nearest cell); a date nearer the second snapshot reads only that
snapshot. -/
theorem grid_timeseries_sampler :
    (∀ (ds : SoilDataset) (lat lon : ℚ) (date : ℤ),
      ¬("time" ∈ ds.dims) → ¬("valid_time" ∈ ds.dims) →
      extract_soil_moisture ds lat lon date = none) ∧
    (∀ (ds : SoilDataset) (lat lon : ℚ) (date : ℤ) (ti : ℕ),
      ("time" ∈ ds.dims ∨ "valid_time" ∈ ds.dims) →
      nearestTimeIdx ds.times date = some ti →
      (∃ t, ds.times[ti]? = some t ∧
        ∀ u ∈ ds.times, (t - date).natAbs ≤ (u - date).natAbs) ∧
      extract_soil_moisture ds lat lon date =
        interp2 ds.lats ds.lons (ds.data ti) lat lon) ∧
    (extract_soil_moisture soilDs2 0 0 2 = some 0 ∧
     extract_soil_moisture soilDs2 (1/2) (1/2) 2 = some 3 ∧
     extract_soil_moisture soilDs2 0 (1/4) 2 = some (1/2) ∧
     extract_soil_moisture soilDs2 (1/2) (1/2) 9 = some 100) := by
  refine ⟨?_, ?_, ?_, ?_, ?_, ?_⟩
  · intro ds lat lon date h1 h2
    unfold extract_soil_moisture
    rw [if_neg h1, if_neg h2]
  · intro ds lat lon date ti halias hti
    constructor
    · unfold nearestTimeIdx at hti
      cases ha : argminAux (fun t => (t - date).natAbs) ds.times 0 with
      | none =>
        rw [ha] at hti
        exact absurd hti (by simp)
      | some p =>
        obtain ⟨j, b⟩ := p
        rw [ha] at hti
        have hj : j = ti := by simpa using hti
        obtain ⟨⟨m, hm, hget⟩, hmin⟩ := argminAux_spec _ ds.times 0 j b ha
        refine ⟨b, ?_, hmin⟩
        rw [← hj, hm]
        simpa using hget
    · unfold extract_soil_moisture
      rcases halias with h | h
      · rw [if_pos h]
        dsimp only
        rw [hti]
      · by_cases h1 : "time" ∈ ds.dims
        · rw [if_pos h1]
          dsimp only
          rw [hti]
        · rw [if_neg h1, if_pos h]
          dsimp only
          rw [hti]
  · show extract_soil_moisture soilDs2 0 0 2 = some 0
    unfold extract_soil_moisture soilDs2 nearestTimeIdx interp2 findCell
      findCellAux
    norm_num [argminAux]
  · show extract_soil_moisture soilDs2 (1/2) (1/2) 2 = some 3
    unfold extract_soil_moisture soilDs2 nearestTimeIdx interp2 findCell
      findCellAux
    norm_num [argminAux]
  · show extract_soil_moisture soilDs2 0 (1/4) 2 = some (1/2)
    unfold extract_soil_moisture soilDs2 nearestTimeIdx interp2 findCell
      findCellAux
    norm_num [argminAux]
  · show extract_soil_moisture soilDs2 (1/2) (1/2) 9 = some 100
    unfold extract_soil_moisture soilDs2 nearestTimeIdx interp2 findCell
      findCellAux
    norm_num [argminAux]

/-- Witness for C8: a dataset with no recognised time alias yields NoData,
and on the concrete dataset the nearest slice to day 2 is the day-0 slice
(index 0) with the sampler reducing to the spatial interpolation of that one
slice. -/
theorem grid_timeseries_sampler_witness :
    extract_soil_moisture soilDsNoTime 0 0 0 = none ∧
    (∃ t, soilDs2.times[0]? = some t ∧
      ∀ u ∈ soilDs2.times, (t - 2).natAbs ≤ (u - 2).natAbs) ∧
    extract_soil_moisture soilDs2 3 7 2 = interp2 soilDs2.lats soilDs2.lons (soilDs2.data 0) 3 7 := by
  refine ⟨?_, ?_⟩
  · exact grid_timeseries_sampler.1 soilDsNoTime 0 0 0 (by decide) (by decide)
  · exact grid_timeseries_sampler.2.1 soilDs2 3 7 2 0 (Or.inl (by decide)) (by decide)

theorem firstMinBy_eq_none {α : Type _} (key : α → ℕ) :
    ∀ (l : List α), firstMinBy key l = none ↔ l = [] := by
  intro l
  cases l with
  | nil => simp [firstMinBy]
  | cons c l =>
    simp only [firstMinBy]
    cases firstMinBy key l with
    | none => simp
    | some b => by_cases hlt : key b < key c <;> simp [hlt]

theorem firstMinBy_spec {α : Type _} (key : α → ℕ) :
    ∀ (l : List α) (b : α), firstMinBy key l = some b →
      b ∈ l ∧ ∀ x ∈ l, key b ≤ key x := by
  intro l
  induction l with
  | nil =>
    intro b h
    exact absurd h (by simp [firstMinBy])
  | cons c l ih =>
    intro b h
    simp only [firstMinBy] at h
    cases h2 : firstMinBy key l with
    | none =>
      rw [h2] at h
      have hl : l = [] := (firstMinBy_eq_none key l).mp h2
      subst hl
      have hb : c = b := Option.some.inj h
      subst hb
      exact ⟨List.mem_cons_self c [], by
        intro x hx
        rcases List.mem_cons.mp hx with hh | hh
        · rw [hh]
        · exact absurd hh (List.not_mem_nil x)⟩
    | some b2 =>
      rw [h2] at h
      dsimp only at h
      obtain ⟨hmem, hmin⟩ := ih b2 h2
      by_cases hlt : key b2 < key c
      · rw [if_pos hlt] at h
        have hb : b2 = b := Option.some.inj h
        subst hb
        refine ⟨List.mem_cons_of_mem c hmem, ?_⟩
        intro x hx
        rcases List.mem_cons.mp hx with hh | hh
        · rw [hh]
          exact Nat.le_of_lt hlt
        · exact hmin x hh
      · rw [if_neg hlt] at h
        have hb : c = b := Option.some.inj h
        subst hb
        refine ⟨List.mem_cons_self c l, ?_⟩
        intro x hx
        rcases List.mem_cons.mp hx with hh | hh
        · rw [hh]
        · exact Nat.le_trans (Nat.le_of_not_lt hlt) (hmin x hh)

theorem fillOne_frame (gap : ℕ) (st : List Row) (i : ℕ) :
    (fillOne gap st i).1.length = st.length ∧
    ∀ (j : ℕ), j ≠ i → (fillOne gap st i).1[j]? = st[j]? := by
  unfold fillOne
  cases hrow : st[i]? with
  | none => exact ⟨rfl, fun j _ => rfl⟩
  | some row =>
    dsimp only
    cases hmin : firstMinBy (fun p => p.2)
        ((st.filter (fun c =>
          c.ndvi.isSome && decide (c.lat = row.lat) && decide (c.lon = row.lon))).filterMap
            (fun c => (dayDiff c.date row.date).map (fun v => (c, v))) |>.filter
          (fun p => p.2 ≤ gap)) with
    | none => exact ⟨rfl, fun j _ => rfl⟩
    | some p =>
      refine ⟨List.length_set st i _, ?_⟩
      intro j hj
      exact List.getElem?_set_ne (fun h => hj h.symm)

theorem fillOne_sound (gap : ℕ) (st : List Row) (i : ℕ) (row : Row) (out : List Row)
    (hrow : st[i]? = some row) (hfill : fillOne gap st i = (out, true)) :
    ∃ c, c ∈ st ∧ c.ndvi.isSome = true ∧ c.lat = row.lat ∧ c.lon = row.lon ∧
      out = st.set i { row with ndvi := c.ndvi } ∧
      ∃ dc dr, c.date = some dc ∧ row.date = some dr ∧ (dc - dr).natAbs ≤ gap ∧
        ∀ q ∈ st, q.ndvi.isSome = true → q.lat = row.lat → q.lon = row.lon →
          ∀ dq, q.date = some dq → (dc - dr).natAbs ≤ (dq - dr).natAbs := by
  unfold fillOne at hfill
  rw [hrow] at hfill
  dsimp only at hfill
  cases hmin : firstMinBy (fun p => p.2)
      ((st.filter (fun c =>
        c.ndvi.isSome && decide (c.lat = row.lat) && decide (c.lon = row.lon))).filterMap
          (fun c => (dayDiff c.date row.date).map (fun v => (c, v))) |>.filter
        (fun p => p.2 ≤ gap)) with
  | none =>
    rw [hmin] at hfill
    exact absurd (congrArg Prod.snd hfill) (by simp)
  | some p =>
    rw [hmin] at hfill
    obtain ⟨hpmem, hpmin⟩ := firstMinBy_spec _ _ p hmin
    have hout : out = st.set i { row with ndvi := p.1.ndvi } :=
      (congrArg Prod.fst hfill).symm
    obtain ⟨hp1, hple⟩ := List.mem_filter.mp hpmem
    obtain ⟨c, hcmem, hcmap⟩ := List.mem_filterMap.mp hp1
    obtain ⟨hcst, hcpred⟩ := List.mem_filter.mp hcmem
    have hcpred' := hcpred
    simp only [Bool.and_eq_true, decide_eq_true_eq] at hcpred'
    obtain ⟨⟨hsome, hlat⟩, hlon⟩ := hcpred'
    cases hdc : c.date with
    | none =>
      rw [hdc] at hcmap
      cases hdr : row.date <;> rw [hdr] at hcmap <;> exact absurd hcmap (by simp [dayDiff])
    | some dc =>
      cases hdr : row.date with
      | none =>
        rw [hdc, hdr] at hcmap
        exact absurd hcmap (by simp [dayDiff])
      | some dr =>
        rw [hdc, hdr] at hcmap
        have hpc : p = (c, (dc - dr).natAbs) := by
          have : dayDiff (some dc) (some dr) = some (dc - dr).natAbs := rfl
          rw [this] at hcmap
          exact (Option.some.inj hcmap).symm
        subst hpc
        rw [hdr] at hout
        refine ⟨c, hcst, hsome, hlat, hlon, hout, dc, dr, hdc, rfl, by simpa using hple, ?_⟩
        intro q hqst hqsome hqlat hqlon dq hqd
        by_cases hqgap : (dq - dr).natAbs ≤ gap
        · have hqnear : (q, (dq - dr).natAbs) ∈
              ((st.filter (fun c =>
                c.ndvi.isSome && decide (c.lat = row.lat) && decide (c.lon = row.lon))).filterMap
                  (fun c => (dayDiff c.date row.date).map (fun v => (c, v))) |>.filter
                (fun p => p.2 ≤ gap)) := by
            apply List.mem_filter.mpr
            refine ⟨List.mem_filterMap.mpr ⟨q, ?_, ?_⟩, by simpa using hqgap⟩
            · exact List.mem_filter.mpr ⟨hqst, by simp [hqsome, hqlat, hqlon]⟩
            · rw [hqd, hdr]
              rfl
          simpa using hpmin (q, (dq - dr).natAbs) hqnear
        · calc (dc - dr).natAbs ≤ gap := by simpa using hple
            _ ≤ (dq - dr).natAbs := Nat.le_of_not_lt (fun hcon => hqgap (Nat.le_of_lt hcon))

theorem fillOne_fires (gap : ℕ) (st : List Row) (i : ℕ) (row c : Row) (dc dr : ℤ)
    (hrow : st[i]? = some row) (hc : c ∈ st) (hsome : c.ndvi.isSome = true)
    (hlat : c.lat = row.lat) (hlon : c.lon = row.lon)
    (hdc : c.date = some dc) (hdr : row.date = some dr)
    (hgap : (dc - dr).natAbs ≤ gap) : (fillOne gap st i).2 = true := by
  unfold fillOne
  rw [hrow]
  dsimp only
  have hcnear : (c, (dc - dr).natAbs) ∈
      ((st.filter (fun c =>
        c.ndvi.isSome && decide (c.lat = row.lat) && decide (c.lon = row.lon))).filterMap
          (fun c => (dayDiff c.date row.date).map (fun v => (c, v))) |>.filter
        (fun p => p.2 ≤ gap)) := by
    apply List.mem_filter.mpr
    refine ⟨List.mem_filterMap.mpr ⟨c, ?_, ?_⟩, by simpa using hgap⟩
    · exact List.mem_filter.mpr ⟨hc, by simp [hsome, hlat, hlon]⟩
    · rw [hdc, hdr]
      rfl
  cases hmin : firstMinBy (fun p => p.2)
      ((st.filter (fun c =>
        c.ndvi.isSome && decide (c.lat = row.lat) && decide (c.lon = row.lon))).filterMap
          (fun c => (dayDiff c.date row.date).map (fun v => (c, v))) |>.filter
        (fun p => p.2 ≤ gap)) with
  | none =>
    rw [(firstMinBy_eq_none _ _).mp hmin] at hcnear
    exact absurd hcnear (List.not_mem_nil _)
  | some p => rfl

theorem ndviFrom_refl (s : List Row) (r : Row) : ndviFrom s r r :=
  ⟨rfl, Or.inl rfl⟩

theorem ndviFrom_lat {s : List Row} {r0 r : Row} (h : ndviFrom s r0 r) :
    r.lat = r0.lat := by
  rw [h.1]

theorem ndviFrom_lon {s : List Row} {r0 r : Row} (h : ndviFrom s r0 r) :
    r.lon = r0.lon := by
  rw [h.1]

theorem ndviFrom_uuid {s : List Row} {r0 r : Row} (h : ndviFrom s r0 r) :
    r.uuid = r0.uuid := by
  rw [h.1]

theorem countP_set_true (p : Row → Bool) :
    ∀ (l : List Row) (i : ℕ) (a b : Row), l[i]? = some b → p b = false → p a = true →
      (l.set i a).countP p = l.countP p + 1 := by
  intro l
  induction l with
  | nil =>
    intro i a b h _ _
    exact absurd h (by simp)
  | cons x l ih =>
    intro i a b h hb ha
    cases i with
    | zero =>
      have hx : x = b := by simpa using h
      subst hx
      simp only [List.set_cons_zero]
      rw [List.countP_cons_of_pos _ _ (by exact ha), List.countP_cons_of_neg _ _ (by simp [hb])]
    | succ i =>
      have h2 : l[i]? = some b := by simpa using h
      simp only [List.set_cons_succ]
      rw [List.countP_cons, List.countP_cons, ih i a b h2 hb ha]
      omega

theorem fillOne_inv (gap : ℕ) (s st : List Row) (i : ℕ) (row : Row)
    (hinv : FillInv s st) (hrow : st[i]? = some row) (hnull : row.ndvi = none) :
    FillInv s (fillOne gap st i).1 ∧
    ((fillOne gap st i).2 = true →
      countSome (fillOne gap st i).1 = countSome st + 1) ∧
    ((fillOne gap st i).2 = false → (fillOne gap st i).1 = st) := by
  cases hq : (fillOne gap st i).2 with
  | false =>
    have hout : (fillOne gap st i).1 = st := by
      unfold fillOne at hq ⊢
      rw [hrow] at hq ⊢
      dsimp only at hq ⊢
      cases hmin : firstMinBy (fun p => p.2)
          ((st.filter (fun c =>
            c.ndvi.isSome && decide (c.lat = row.lat) && decide (c.lon = row.lon))).filterMap
              (fun c => (dayDiff c.date row.date).map (fun v => (c, v))) |>.filter
            (fun p => p.2 ≤ gap)) with
      | none => rfl
      | some p =>
        rw [hmin] at hq
        exact absurd hq (by simp)
    rw [hout]
    exact ⟨hinv, fun hc => absurd hc (by simp), fun _ => rfl⟩
  | true =>
    have hfill : fillOne gap st i = ((fillOne gap st i).1, true) := by
      rw [← hq]
    obtain ⟨c, hcst, hsome, hlat, hlon, hout, dc, dr, hdc, hdr, hgap, hmin⟩ :=
      fillOne_sound gap st i row (fillOne gap st i).1 hrow hfill
    have hi : i < st.length := by
      by_contra hcon
      rw [List.getElem?_eq_none (Nat.le_of_not_lt hcon)] at hrow
      exact Option.noConfusion hrow
    obtain ⟨hlen, hpt⟩ := hinv
    have hfs : i < s.length := by omega
    refine ⟨⟨?_, ?_⟩, ?_, ?_⟩
    · rw [hout, List.length_set, hlen]
    · intro j r0 r hj0 hjr
      by_cases hji : j = i
      · subst hji
        rw [hout, List.getElem?_set_self hi] at hjr
        have hr : r = { row with ndvi := c.ndvi } := (Option.some.inj hjr).symm
        have hrowfrom : ndviFrom s r0 row := hpt j r0 row hj0 hrow
        have hrowbase : row = { r0 with ndvi := row.ndvi } := hrowfrom.1
        -- locate the donor in the start table through the invariant
        obtain ⟨k, hk⟩ := List.mem_iff_getElem?.mp hcst
        have hks : k < s.length := by
          have : k < st.length := by
            by_contra hcon
            rw [List.getElem?_eq_none (Nat.le_of_not_lt hcon)] at hk
            exact Option.noConfusion hk
          omega
        obtain ⟨c0, hc0⟩ : ∃ c0, s[k]? = some c0 := by
          cases hcs : s[k]? with
          | none =>
            rw [List.getElem?_eq_none_iff] at hcs
            omega
          | some c0 => exact ⟨c0, rfl⟩
        have hcfrom : ndviFrom s c0 c := hpt k c0 c hc0 hk
        have hcbase : c = { c0 with ndvi := c.ndvi } := hcfrom.1
        constructor
        · rw [hr, hrowbase]
        · right
          have hne : c.ndvi ≠ none := by
            intro hcon
            rw [hcon] at hsome
            exact Bool.noConfusion hsome
          have hrndvi : r.ndvi = c.ndvi := by rw [hr]
          rcases hcfrom.2 with hsame | ⟨c2, hc2s, hc2lat, hc2lon, hc2v, _⟩
          · refine ⟨c0, List.mem_iff_getElem?.mpr ⟨k, hc0⟩, ?_, ?_, ?_, ?_⟩
            · calc c0.lat = c.lat := (ndviFrom_lat hcfrom).symm
                _ = row.lat := hlat
                _ = r0.lat := ndviFrom_lat hrowfrom
            · calc c0.lon = c.lon := (ndviFrom_lon hcfrom).symm
                _ = row.lon := hlon
                _ = r0.lon := ndviFrom_lon hrowfrom
            · rw [← hsame, hrndvi]
            · rw [hrndvi]; exact hne
          · refine ⟨c2, hc2s, ?_, ?_, ?_, ?_⟩
            · calc c2.lat = c0.lat := hc2lat
                _ = c.lat := (ndviFrom_lat hcfrom).symm
                _ = row.lat := hlat
                _ = r0.lat := ndviFrom_lat hrowfrom
            · calc c2.lon = c0.lon := hc2lon
                _ = c.lon := (ndviFrom_lon hcfrom).symm
                _ = row.lon := hlon
                _ = r0.lon := ndviFrom_lon hrowfrom
            · rw [hc2v, hrndvi]
            · rw [hrndvi]; exact hne
      · rw [hout, List.getElem?_set_ne (fun h => hji h.symm)] at hjr
        exact hpt j r0 r hj0 hjr
    · intro _
      show countSome (fillOne gap st i).1 = countSome st + 1
      rw [hout]
      unfold countSome
      exact countP_set_true _ st i _ row hrow (by simp [hnull]) (by simpa using hsome)
    · intro hcon
      exact absurd hcon (by simp)

theorem fill_loop_spec (gap : ℕ) (s : List Row) :
    ∀ (ps : List ℕ) (st : List Row) (cnt : ℕ),
      ps.Nodup →
      (∀ i ∈ ps, ∃ r, st[i]? = some r ∧ r.ndvi = none) →
      FillInv s st →
      FillInv s (fillLoop gap ps st cnt).1 ∧
      (∀ (j : ℕ), j ∉ ps → (fillLoop gap ps st cnt).1[j]? = st[j]?) ∧
      (fillLoop gap ps st cnt).2 + countSome st = cnt + countSome (fillLoop gap ps st cnt).1 := by
  intro ps
  induction ps with
  | nil =>
    intro st cnt _ _ hinv
    exact ⟨hinv, fun _ _ => rfl, rfl⟩
  | cons i ps ih =>
    intro st cnt hnd hnulls hinv
    have hnd' := List.nodup_cons.mp hnd
    obtain ⟨row, hrow, hnl⟩ := hnulls i (List.mem_cons_self i ps)
    obtain ⟨hinv1, hcount1, hsame1⟩ := fillOne_inv gap s st i row hinv hrow hnl
    have hstep : fillLoop gap (i :: ps) st cnt =
        fillLoop gap ps (fillOne gap st i).1
          (if (fillOne gap st i).2 then cnt + 1 else cnt) := rfl
    have hnulls2 : ∀ h ∈ ps, ∃ r, (fillOne gap st i).1[h]? = some r ∧ r.ndvi = none := by
      intro h hh
      obtain ⟨r, hr, hrn⟩ := hnulls h (List.mem_cons_of_mem i hh)
      refine ⟨r, ?_, hrn⟩
      rw [(fillOne_frame gap st i).2 h (fun hc => hnd'.1 (hc ▸ hh)), hr]
    obtain ⟨hinvf, huntf, hcntf⟩ :=
      ih (fillOne gap st i).1 (if (fillOne gap st i).2 then cnt + 1 else cnt)
        hnd'.2 hnulls2 hinv1
    refine ⟨by rw [hstep]; exact hinvf, ?_, ?_⟩
    · intro j hj
      have hj1 : j ∉ ps := fun hc => hj (List.mem_cons_of_mem i hc)
      have hji : j ≠ i := fun hc => hj (hc ▸ List.mem_cons_self i ps)
      rw [hstep, huntf j hj1, (fillOne_frame gap st i).2 j hji]
    · rw [hstep]
      cases hb : (fillOne gap st i).2 with
      | true =>
        have hsel : (if (fillOne gap st i).2 = true then cnt + 1 else cnt) = cnt + 1 := by
          rw [hb]
          simp
        have hsel2 : (if true = true then cnt + 1 else cnt) = cnt + 1 := by simp
        rw [hsel] at hcntf
        rw [hcount1 hb] at hcntf
        rw [hsel2]
        omega
      | false =>
        have hsel : (if (fillOne gap st i).2 = true then cnt + 1 else cnt) = cnt := by
          rw [hb]
          simp
        have hsel2 : (if false = true then cnt + 1 else cnt) = cnt := by simp
        rw [hsel] at hcntf
        rw [hsame1 hb] at hcntf
        rw [hsel2, hsame1 hb]
        omega

theorem fill_missing_spec (rows : List Row) (gap : ℕ) :
    FillInv (sortByDate rows) (fill_missing_ndvi rows gap).1 ∧
    (∀ (j : ℕ) (r : Row), (sortByDate rows)[j]? = some r → r.ndvi.isSome = true →
      (fill_missing_ndvi rows gap).1[j]? = some r) ∧
    (fill_missing_ndvi rows gap).2 + countSome (sortByDate rows) =
      countSome (fill_missing_ndvi rows gap).1 := by
  have hnd : ((List.range (sortByDate rows).length).filter (fun i =>
      match (sortByDate rows)[i]? with
      | some r => r.ndvi.isNone
      | none => false)).Nodup := (List.nodup_range _).filter _
  have hnulls : ∀ i ∈ (List.range (sortByDate rows).length).filter (fun i =>
      match (sortByDate rows)[i]? with
      | some r => r.ndvi.isNone
      | none => false), ∃ r, (sortByDate rows)[i]? = some r ∧ r.ndvi = none := by
    intro i hi
    obtain ⟨_, hpred⟩ := List.mem_filter.mp hi
    cases hs : (sortByDate rows)[i]? with
    | none =>
      rw [hs] at hpred
      exact absurd hpred (by simp)
    | some r =>
      rw [hs] at hpred
      exact ⟨r, rfl, Option.isNone_iff_eq_none.mp hpred⟩
  have hinv0 : FillInv (sortByDate rows) (sortByDate rows) := by
    refine ⟨rfl, ?_⟩
    intro j r0 r h0 h1
    rw [h0] at h1
    exact (Option.some.inj h1) ▸ ndviFrom_refl (sortByDate rows) r0
  obtain ⟨hi, hu, hc⟩ := fill_loop_spec gap (sortByDate rows) _ (sortByDate rows) 0
    hnd hnulls hinv0
  rw [Nat.zero_add] at hc
  refine ⟨hi, ?_, hc⟩
  intro j r hj hsome
  have hjnot : j ∉ (List.range (sortByDate rows).length).filter (fun i =>
      match (sortByDate rows)[i]? with
      | some r => r.ndvi.isNone
      | none => false) := by
    intro hmem
    obtain ⟨r2, hr2, hr2n⟩ := hnulls j hmem
    rw [hj] at hr2
    cases Option.some.inj hr2
    rw [hr2n] at hsome
    exact Bool.noConfusion hsome
  show (fillLoop gap ((List.range (sortByDate rows).length).filter (fun i =>
      match (sortByDate rows)[i]? with
      | some r => r.ndvi.isNone
      | none => false)) (sortByDate rows) 0).1[j]? = some r
  rw [hu j hjnot, hj]

theorem fill_map_uuid (rows : List Row) (gap : ℕ) :
    (fill_missing_ndvi rows gap).1.map (fun r => r.uuid) =
      (sortByDate rows).map (fun r => r.uuid) := by
  obtain ⟨⟨hlen, hpt⟩, -, -⟩ := fill_missing_spec rows gap
  apply List.ext_getElem?
  intro n
  rw [List.getElem?_map, List.getElem?_map]
  cases hs : (sortByDate rows)[n]? with
  | none =>
    have hq : (fill_missing_ndvi rows gap).1[n]? = none := by
      rw [List.getElem?_eq_none_iff] at hs ⊢
      omega
    rw [hq]
  | some r0 =>
    have hn : n < (sortByDate rows).length := by
      by_contra hcon
      rw [List.getElem?_eq_none (Nat.le_of_not_lt hcon)] at hs
      exact Option.noConfusion hs
    obtain ⟨r, hr⟩ : ∃ r, (fill_missing_ndvi rows gap).1[n]? = some r := by
      cases hq : (fill_missing_ndvi rows gap).1[n]? with
      | none =>
        rw [List.getElem?_eq_none_iff] at hq
        omega
      | some r => exact ⟨r, rfl⟩
    rw [hr]
    simp only [Option.map_some']
    rw [ndviFrom_uuid (hpt n r0 r hs hr)]

/-- C5: the Temporal Fallback Imputer touches only the rows that are null at
the start of the pass (non-null rows come out unchanged at their sorted
position); whenever an iteration fills a row, the donor is a row of the
current table with a non-null value at exactly the same latitude and
longitude, its absolute day difference is `≤ max_days_gap` and is minimal
among all same-location non-null candidates (first minimiser, stable order);
a same-location candidate within the gap guarantees the fill fires; and on
the spec's concrete scenario — non-null values at one location on day 1 and
day 10, a null row there on day 3 — the null row is filled from day 1 when
the gap is 2 or 7 and stays null when the gap is 1. -/
theorem temporal_fallback_imputer :
    (∀ (rows : List Row) (gap : ℕ) (j : ℕ) (r : Row),
      (sortByDate rows)[j]? = some r → r.ndvi.isSome = true →
      (fill_missing_ndvi rows gap).1[j]? = some r) ∧
    (∀ (gap : ℕ) (st : List Row) (i : ℕ) (row : Row) (out : List Row),
      st[i]? = some row → fillOne gap st i = (out, true) →
      ∃ c, c ∈ st ∧ c.ndvi.isSome = true ∧ c.lat = row.lat ∧ c.lon = row.lon ∧
        out = st.set i { row with ndvi := c.ndvi } ∧
        ∃ dc dr, c.date = some dc ∧ row.date = some dr ∧ (dc - dr).natAbs ≤ gap ∧
          ∀ q ∈ st, q.ndvi.isSome = true → q.lat = row.lat → q.lon = row.lon →
            ∀ dq, q.date = some dq → (dc - dr).natAbs ≤ (dq - dr).natAbs) ∧
    (∀ (gap : ℕ) (st : List Row) (i : ℕ) (row c : Row) (dc dr : ℤ),
      st[i]? = some row → c ∈ st → c.ndvi.isSome = true →
      c.lat = row.lat → c.lon = row.lon →
      c.date = some dc → row.date = some dr → (dc - dr).natAbs ≤ gap →
      (fillOne gap st i).2 = true) ∧
    (fill_missing_ndvi rowsSpecFill 2).1.map (fun r => r.ndvi) =
      [some 5, some 5, some 8] ∧
    (fill_missing_ndvi rowsSpecFill 7).1.map (fun r => r.ndvi) =
      [some 5, some 5, some 8] ∧
    (fill_missing_ndvi rowsSpecFill 1).1.map (fun r => r.ndvi) =
      [some 5, none, some 8] := by
  refine ⟨?_, ?_, ?_, by decide, by decide, by decide⟩
  · intro rows gap j r hj hv
    exact (fill_missing_spec rows gap).2.1 j r hj hv
  · intro gap st i row out h1 h2
    exact fillOne_sound gap st i row out h1 h2
  · intro gap st i row c dc dr h1 h2 h3 h4 h5 h6 h7 h8
    exact fillOne_fires gap st i row c dc dr h1 h2 h3 h4 h5 h6 h7 h8

theorem temporal_fallback_imputer_witness :
    (fill_missing_ndvi rowsSpecFill 2).1[0]? =
      some (mkRow 1 (some 1) 40 (-105) (some 5)) :=
  temporal_fallback_imputer.1 rowsSpecFill 2 0
    (mkRow 1 (some 1) 40 (-105) (some 5)) (by decide) (by decide)

/-- C6 counterexample: on a table whose only initially non-null row sits on
day 1, with null rows on day 8 and day 9 at the same location and a gap of
7 days, the pass fills the day-8 row from day 1 and then fills the day-9 row
from the day-8 row it has just modified — every row that was non-null at the
start of the pass is 8 > 7 days away from day 9 — so a row used as a donor
does not keep the value it had at the start of the pass. -/
theorem fill_mutated_donor_counterexample :
    (fill_missing_ndvi rowsChainFill 7).1.map (fun r => r.ndvi) =
      [some 5, some 5, some 5] ∧
    (fill_missing_ndvi rowsChainFill 7).2 = 2 ∧
    rowsChainFill.map (fun r => r.ndvi) = [some 5, none, none] ∧
    (∀ r ∈ rowsChainFill, r.ndvi.isSome = true → r.date = some 1) ∧
    ((9 : ℤ) - 1).natAbs > 7 := by
  refine ⟨by decide, by decide, by decide, by decide, by decide⟩

/-- C6 amended: the pass reports the number of rows it filled (the `filled`
counter equals the number of rows that are non-null on output but were null
on input), and it never invents a value: every output row differs from the
input row at its position only in the filled variable, and a newly non-null
value is carried by some row of the start-of-pass table at exactly the same
coordinates (which need not be within the gap of the filled row, and whose
own value the pass may itself have overwritten before the donation, since
candidates are read from the mutating table); a null row with no
same-location row holding a value anywhere stays null. -/
theorem fill_reports_count_and_provenance :
    (∀ (rows : List Row) (gap : ℕ),
      (fill_missing_ndvi rows gap).2 + countSome rows =
        countSome (fill_missing_ndvi rows gap).1) ∧
    (∀ (rows : List Row) (gap : ℕ) (j : ℕ) (r0 r : Row),
      (sortByDate rows)[j]? = some r0 →
      (fill_missing_ndvi rows gap).1[j]? = some r →
      ndviFrom (sortByDate rows) r0 r) ∧
    (∀ (rows : List Row) (gap : ℕ) (j : ℕ) (r0 : Row),
      (sortByDate rows)[j]? = some r0 → r0.ndvi = none →
      (∀ c ∈ rows, c.lat = r0.lat → c.lon = r0.lon → c.ndvi = none) →
      ∃ r, (fill_missing_ndvi rows gap).1[j]? = some r ∧ r.ndvi = none) := by
  refine ⟨?_, ?_, ?_⟩
  · intro rows gap
    have hperm : List.Perm (sortByDate rows) rows := List.perm_insertionSort _ rows
    have hcnt : countSome (sortByDate rows) = countSome rows := hperm.countP_eq _
    have h2 := (fill_missing_spec rows gap).2.2
    omega
  · intro rows gap j r0 r hj hr
    exact (fill_missing_spec rows gap).1.2 j r0 r hj hr
  · intro rows gap j r0 hj hnull hno
    obtain ⟨⟨hlen, hpt⟩, -, -⟩ := fill_missing_spec rows gap
    have hn : j < (sortByDate rows).length := by
      by_contra hcon
      rw [List.getElem?_eq_none (Nat.le_of_not_lt hcon)] at hj
      exact Option.noConfusion hj
    obtain ⟨r, hr⟩ : ∃ r, (fill_missing_ndvi rows gap).1[j]? = some r := by
      cases hq : (fill_missing_ndvi rows gap).1[j]? with
      | none =>
        rw [List.getElem?_eq_none_iff] at hq
        omega
      | some r => exact ⟨r, rfl⟩
    refine ⟨r, hr, ?_⟩
    obtain ⟨-, hdisj⟩ := hpt j r0 r hj hr
    cases hdisj with
    | inl h => rw [h, hnull]
    | inr h =>
      obtain ⟨c, hcmem, hclat, hclon, hcval, hne⟩ := h
      have hcrows : c ∈ rows := (List.perm_insertionSort _ rows).mem_iff.mp hcmem
      have hcnone := hno c hcrows hclat hclon
      rw [hcval] at hcnone
      exact absurd hcnone hne

theorem fill_reports_count_and_provenance_witness :
    (fill_missing_ndvi rowsChainFill 7).2 + countSome rowsChainFill =
      countSome (fill_missing_ndvi rowsChainFill 7).1 ∧
    (∃ r, (fill_missing_ndvi rowsLoneNull 7).1[0]? = some r ∧ r.ndvi = none) :=
  ⟨fill_reports_count_and_provenance.1 rowsChainFill 7,
   fill_reports_count_and_provenance.2.2 rowsLoneNull 7 0
     (mkRow 1 (some 1) 40 (-105) none) (by decide) (by decide) (by decide)⟩

/-- C7 counterexample: the NDVI fill pass returns the date-sorted table, so
on an input whose rows are not already in date order the output rows come
back in a different order — here the pass fills nothing (both rows are
non-null) yet the identifier sequence flips from [1, 2] to [2, 1]. -/
theorem fill_reorders_rows_counterexample :
    rowsReorder.map (fun r => r.uuid) = [1, 2] ∧
    (fill_missing_ndvi rowsReorder 7).1.map (fun r => r.uuid) = [2, 1] ∧
    (fill_missing_ndvi rowsReorder 7).2 = 0 := by
  refine ⟨by decide, by decide, by decide⟩

/-- C7 amended: the three raster-enrichment passes and the labelling pass
keep the identifier sequence exactly (no reorder, no drop, no duplicate);
the NDVI fill pass keeps the multiset of identifiers and the row count but
returns the table sorted by date, so it may reorder rows; clustering pairs
every input row, in order, with an optional label, and when identifiers are
unique a row excluded from the fitting subtable (some feature null) gets a
null label. -/
theorem passes_preserve_row_identity :
    (∀ (env : Env) (rows : List Row),
      (enrich_df_with_rasters env rows).map (fun r => r.uuid) =
        rows.map (fun r => r.uuid)) ∧
    (∀ (env : Env) (rows : List Row),
      (enrich_with_precip env rows).map (fun r => r.uuid) =
        rows.map (fun r => r.uuid)) ∧
    (∀ (env : Env) (rows : List Row),
      (enrich_with_worldcover env rows).map (fun r => r.uuid) =
        rows.map (fun r => r.uuid)) ∧
    (∀ rows : List Row,
      (add_worldcover_labels rows).map (fun r => r.uuid) =
        rows.map (fun r => r.uuid)) ∧
    (∀ (rows : List Row) (gap : ℕ),
      List.Perm ((fill_missing_ndvi rows gap).1.map (fun r => r.uuid))
        (rows.map (fun r => r.uuid)) ∧
      (fill_missing_ndvi rows gap).1.length = rows.length) ∧
    (∀ (fit : List Row → List ℤ) (rows : List Row),
      (cluster_environmental fit rows).map (fun p => p.1) = rows ∧
      ∀ p ∈ cluster_environmental fit rows, hasAllFeatures p.1 = false →
        (rows.map (fun r => r.uuid)).Nodup → p.2 = none) := by
  refine ⟨?_, ?_, ?_, ?_, ?_, ?_⟩
  · intro env rows
    rw [enrich_eq_map, List.map_map]
    rfl
  · intro env rows
    rw [precip_eq_map, List.map_map]
    rfl
  · intro env rows
    unfold enrich_with_worldcover
    rw [List.map_map, List.map_map]
    apply List.map_congr_left
    intro r _
    dsimp only [Function.comp]
    split <;> rfl
  · intro rows
    unfold add_worldcover_labels
    rw [List.map_map]
    rfl
  · intro rows gap
    constructor
    · rw [fill_map_uuid]
      exact (List.perm_insertionSort _ rows).map _
    · have hlen := (fill_missing_spec rows gap).1.1
      rw [hlen]
      exact (List.perm_insertionSort _ rows).length_eq
  · intro fit rows
    constructor
    · unfold cluster_environmental
      dsimp only
      rw [List.map_map]
      exact map_id_of (fun x _ => rfl)
    · intro p hp hfeat hnodup
      unfold cluster_environmental at hp
      dsimp only at hp
      obtain ⟨r, hrmem, hpr⟩ := List.mem_map.mp hp
      cases hpr
      dsimp only at hfeat ⊢
      cases hf : ((rows.filter hasAllFeatures).zip
          (fit (rows.filter hasAllFeatures))).find?
          (fun q => decide (q.1.uuid = r.uuid)) with
      | none => rfl
      | some q =>
        obtain ⟨qr, ql⟩ := q
        have hqmem := List.mem_of_find?_eq_some hf
        have hqpred := List.find?_some hf
        obtain ⟨hq1, -⟩ := List.of_mem_zip hqmem
        obtain ⟨hqrows, hqfeat⟩ := List.mem_filter.mp hq1
        have hequuid : qr.uuid = r.uuid := by simpa using hqpred
        have hqr : qr = r := List.inj_on_of_nodup_map hnodup hqrows hrmem hequuid
        rw [hqr, hfeat] at hqfeat
        exact Bool.noConfusion hqfeat

theorem passes_preserve_row_identity_witness :
    List.Perm ((fill_missing_ndvi rowsReorder 7).1.map (fun r => r.uuid))
      (rowsReorder.map (fun r => r.uuid)) ∧
    (mkRow 1 (some 10) 40 (-105) (some 1), (none : Option ℤ)).2 = none :=
  ⟨(passes_preserve_row_identity.2.2.2.2.1 rowsReorder 7).1,
   (passes_preserve_row_identity.2.2.2.2.2 (fun l => l.map (fun _ => (0 : ℤ)))
       rowsReorder).2
     (mkRow 1 (some 10) 40 (-105) (some 1), none) (by decide) (by decide)
     (by decide)⟩
